import Mathlib

/-!
Verification development for the lambda-otel-relay extension core.

Shallow embedding of the buffer, merge, flush-strategy, exporter and
event-loop components of `crates/extension/src`, with theorems checking the
specification's claims against the embedded code.

Conventions: Rust `Bytes` payloads are `List Nat` (byte sequences), `usize`
arithmetic is `Nat` (no mutation in the embedded fragment can overflow a
64-bit count because sizes only ever sum lengths of stored payloads, and the
claims quantify over reachable states), Rust `Duration` is a count of
nanoseconds (`Nat`), and fallible operations return `Option`/`Except`.
-/

namespace OtelRelay

/-! ## Signals and payloads (`buffers/mod.rs`) -/

/-- `enum Signal { Traces, Metrics, Logs }`. -/
inductive Signal where
  | Traces
  | Metrics
  | Logs
deriving DecidableEq

/-- A `Bytes` payload: an immutable byte sequence. -/
abbrev Payload := List Nat

/-- `struct SignalBuffer { queue: VecDeque<Bytes>, size_bytes: usize }`.
The front of the `VecDeque` is the head of the list. -/
structure SignalBuffer where
  queue : List Payload
  size_bytes : Nat
deriving DecidableEq

/-- `SignalBuffer::default()`. -/
def SignalBuffer.empty : SignalBuffer := { queue := [], size_bytes := 0 }

/-- `SignalBuffer::clear`. -/
def SignalBuffer.clear (_b : SignalBuffer) : SignalBuffer :=
  { queue := [], size_bytes := 0 }

/-- `SignalBuffer::is_empty`. -/
def SignalBuffer.isEmptyQ (b : SignalBuffer) : Bool := b.queue.isEmpty

/-- `SignalBuffer::evict_oldest`: pop the front entry (if any), subtract its
length from `size_bytes`, and return the bytes freed. -/
def SignalBuffer.evictOldest (b : SignalBuffer) : SignalBuffer × Nat :=
  match b.queue with
  | [] => (b, 0)
  | entry :: rest => ({ queue := rest, size_bytes := b.size_bytes - entry.length }, entry.length)

/-- `SignalBuffer::prepend`: after the call `self` contains `[older..., self...]`
and `size_bytes` is the sum of both operands' counts. -/
def SignalBuffer.prepend (self older : SignalBuffer) : SignalBuffer :=
  { queue := older.queue ++ self.queue, size_bytes := older.size_bytes + self.size_bytes }

/-- `struct BufferData { traces, metrics, logs: SignalBuffer }`. -/
structure BufferData where
  traces : SignalBuffer
  metrics : SignalBuffer
  logs : SignalBuffer
deriving DecidableEq

/-- `BufferData::new` / `Default`. -/
def BufferData.empty : BufferData :=
  { traces := .empty, metrics := .empty, logs := .empty }

/-- `BufferData::is_empty`. -/
def BufferData.isEmptyB (b : BufferData) : Bool :=
  b.traces.isEmptyQ && b.metrics.isEmptyQ && b.logs.isEmptyQ

/-- `BufferData::push`: append to the selected signal's queue and grow its
byte count. -/
def BufferData.push (b : BufferData) (signal : Signal) (payload : Payload) : BufferData :=
  match signal with
  | .Traces => { b with traces := { queue := b.traces.queue ++ [payload],
                                    size_bytes := b.traces.size_bytes + payload.length } }
  | .Metrics => { b with metrics := { queue := b.metrics.queue ++ [payload],
                                      size_bytes := b.metrics.size_bytes + payload.length } }
  | .Logs => { b with logs := { queue := b.logs.queue ++ [payload],
                                size_bytes := b.logs.size_bytes + payload.length } }

/-- `BufferData::total_size_bytes`. -/
def BufferData.totalSizeBytes (b : BufferData) : Nat :=
  b.traces.size_bytes + b.metrics.size_bytes + b.logs.size_bytes

/-- `BufferData::prepend`: prepend `older` in front of `self` for all three
signals. -/
def BufferData.prepend (self older : BufferData) : BufferData :=
  { traces := self.traces.prepend older.traces
    metrics := self.metrics.prepend older.metrics
    logs := self.logs.prepend older.logs }

/-- The signal's queue inside a `BufferData` (the field selected by the
`match signal` dispatch in `BufferData::push`). -/
def BufferData.getSig (b : BufferData) : Signal → SignalBuffer
  | .Traces => b.traces
  | .Metrics => b.metrics
  | .Logs => b.logs

/-- One iteration of the `while total > max_bytes` loop body of
`BufferData::evict_to`: evict the oldest traces entry, then (if still over)
the oldest metrics entry, then (if still over) the oldest logs entry.
Returns the updated buffer, the updated local `total`, and `any_evicted`.
The per-signal `dropped_bytes`/`dropped_count` log accumulators are omitted:
they feed only the `warn!` records. -/
def BufferData.evictPass (b : BufferData) (total maxBytes : Nat) : BufferData × Nat × Bool :=
  let p1 := b.traces.evictOldest
  let b1 : BufferData := { b with traces := p1.1 }
  let total1 := if p1.2 > 0 then total - p1.2 else total
  let any1 := p1.2 > 0
  if total1 > maxBytes then
    let p2 := b1.metrics.evictOldest
    let b2 : BufferData := { b1 with metrics := p2.1 }
    let total2 := if p2.2 > 0 then total1 - p2.2 else total1
    let any2 := any1 || (p2.2 > 0)
    if total2 > maxBytes then
      let p3 := b2.logs.evictOldest
      let b3 : BufferData := { b2 with logs := p3.1 }
      let total3 := if p3.2 > 0 then total2 - p3.2 else total2
      let any3 := any2 || (p3.2 > 0)
      (b3, total3, any3)
    else
      (b2, total2, any2)
  else
    (b1, total1, any1)

/-- Number of queued payloads across the three signals; used as the fuel
bound for the eviction loop (every pass that sets `any_evicted` removes at
least one queued payload). -/
def BufferData.numItems (b : BufferData) : Nat :=
  b.traces.queue.length + b.metrics.queue.length + b.logs.queue.length

/-- The `while total > max_bytes { ...; if !any_evicted { break } }` loop of
`BufferData::evict_to`, with explicit fuel. -/
def BufferData.evictLoop : Nat → BufferData → Nat → Nat → BufferData
  | 0, b, _, _ => b
  | fuel + 1, b, total, maxBytes =>
    if total > maxBytes then
      let r := b.evictPass total maxBytes
      if r.2.2 then BufferData.evictLoop fuel r.1 r.2.1 maxBytes else r.1
    else b

/-- `BufferData::evict_to(max_bytes)`. The fuel `numItems + 1` dominates the
number of loop iterations: the loop body runs only while `any_evicted` holds,
and each such pass strictly shrinks `numItems`. -/
def BufferData.evictTo (b : BufferData) (maxBytes : Nat) : BufferData :=
  BufferData.evictLoop (b.numItems + 1) b b.totalSizeBytes maxBytes

/-! ## Flush strategy (`flush_strategy/mod.rs`)

Rust `Duration` values are modelled as nanosecond counts. A `Duration` is
representable iff it is at most `durMax` (`u64::MAX` seconds plus
`999_999_999` nanoseconds). -/

/-- `u64::MAX`. -/
def u64Max : Nat := 2 ^ 64 - 1

/-- `Duration::MAX` in nanoseconds. -/
def durMax : Nat := u64Max * 1000000000 + 999999999

/-- `Duration::from_millis` in nanoseconds. -/
def durFromMillis (ms : Nat) : Nat := ms * 1000000

/-- `Duration::as_millis` on a nanosecond count. -/
def durAsMillis (d : Nat) : Nat := d / 1000000

/-- `DEDUP_WINDOW = Duration::from_millis(100)`. -/
def DEDUP_WINDOW : Nat := durFromMillis 100

/-- `DEFAULT_ADAPTIVE_THRESHOLD = Duration::from_secs(60)`. -/
def DEFAULT_ADAPTIVE_THRESHOLD : Nat := 60 * 1000000000

/-- `enum FlushStrategy`; intervals are nanosecond counts. -/
inductive FlushStrategy where
  | Default
  | End
  | EndPeriodically (interval : Nat)
  | Periodically (interval : Nat)
  | Continuously (interval : Nat)
deriving DecidableEq

/-- `enum FlushStrategyError`. The human-readable message strings attached by
the source (`"missing comma-separated millisecond parameter"`, the quoted
`{param:?}` text and `"interval must be greater than 0"`) carry no data the
claims inspect, so each variant records the strategy/param characters only. -/
inductive FlushStrategyError where
  | UnknownStrategy (s : List Char)
  | InvalidParameter (strategy : List Char) (param : List Char)
deriving DecidableEq

/-- Decidable equality of parse results. -/
instance {ε α : Type} [DecidableEq ε] [DecidableEq α] : DecidableEq (Except ε α) :=
  fun a b =>
    match a, b with
    | .ok x, .ok y =>
      if h : x = y then .isTrue (by rw [h])
      else .isFalse (fun hh => h (by injection hh))
    | .error x, .error y =>
      if h : x = y then .isTrue (by rw [h])
      else .isFalse (fun hh => h (by injection hh))
    | .ok _, .error _ => .isFalse (fun hh => by injection hh)
    | .error _, .ok _ => .isFalse (fun hh => by injection hh)

/-- Rust `str::starts_with` on character lists. -/
def startsWith : List Char → List Char → Bool
  | [], _ => true
  | _ :: _, [] => false
  | p :: ps, c :: cs => p = c && startsWith ps cs

/-- Rust `str::strip_prefix` on character lists. -/
def stripPre (p s : List Char) : Option (List Char) :=
  if startsWith p s then some (s.drop p.length) else none

/-- Whether a character is an ASCII decimal digit (Rust `u64::from_str`
accepts only ASCII `0-9`). -/
def isDigitCh (c : Char) : Bool := 48 ≤ c.toNat && c.toNat ≤ 57

/-- Numeric value of an ASCII digit character. -/
def digitVal (c : Char) : Nat := c.toNat - 48

/-- Rust `str::parse::<u64>()`: an optional leading `+`, then a non-empty
run of ASCII digits whose value fits in `u64`; anything else is an error.
Rust detects overflow while accumulating, which rejects exactly the strings
whose numeric value exceeds `u64::MAX`. -/
def parseU64 (s : List Char) : Option Nat :=
  let t := match s with
    | c :: rest => if c = '+' then rest else s
    | [] => s
  if t = [] then none
  else if t.all isDigitCh then
    let v := t.foldl (fun a c => a * 10 + digitVal c) 0
    if v ≤ u64Max then some v else none
  else none

/-- `parse_ms_param(strategy, raw)`: strip the strategy name, require a
leading comma, parse the remainder as `u64`, and reject zero. -/
def parseMsParam (strategy raw : List Char) : Except FlushStrategyError Nat :=
  let param := (stripPre strategy raw).getD []
  match param with
  | ',' :: rest =>
    match parseU64 rest with
    | some ms =>
      if ms = 0 then .error (.InvalidParameter strategy rest) else .ok ms
    | none => .error (.InvalidParameter strategy rest)
  | _ => .error (.InvalidParameter strategy param)

/-- The character-list constants matched by `FlushStrategy::from_str` and
printed by `Display`. -/
def kDefault : List Char := ['d', 'e', 'f', 'a', 'u', 'l', 't']

def kEnd : List Char := ['e', 'n', 'd']

def kEndComma : List Char := ['e', 'n', 'd', ',']

def kPeriodically : List Char :=
  ['p', 'e', 'r', 'i', 'o', 'd', 'i', 'c', 'a', 'l', 'l', 'y']

def kPeriodicallyComma : List Char := kPeriodically ++ [',']

def kContinuously : List Char :=
  ['c', 'o', 'n', 't', 'i', 'n', 'u', 'o', 'u', 's', 'l', 'y']

def kContinuouslyComma : List Char := kContinuously ++ [',']

/-- `FlushStrategy::from_str`, with the source's match arms in order:
`"" | "default"`, `"end"`, `starts_with("end,")`,
`starts_with("periodically,") || s == "periodically"`,
`starts_with("continuously,") || s == "continuously"`, otherwise unknown. -/
def FlushStrategy.fromStr (s : List Char) : Except FlushStrategyError FlushStrategy :=
  if s = [] ∨ s = kDefault then .ok .Default
  else if s = kEnd then .ok .End
  else if startsWith kEndComma s then
    (parseMsParam kEnd s).map fun ms => .EndPeriodically (durFromMillis ms)
  else if startsWith kPeriodicallyComma s ∨ s = kPeriodically then
    (parseMsParam kPeriodically s).map fun ms => .Periodically (durFromMillis ms)
  else if startsWith kContinuouslyComma s ∨ s = kContinuously then
    (parseMsParam kContinuously s).map fun ms => .Continuously (durFromMillis ms)
  else .error (.UnknownStrategy s)

/-- ASCII character for a decimal digit. -/
def digitChar (d : Nat) : Char := Char.ofNat (48 + d)

/-- Decimal rendering of a natural number, as Rust's `Display` for integers
prints it: most-significant digit first, `"0"` for zero. -/
def renderNat (n : Nat) : List Char :=
  if n = 0 then ['0'] else (Nat.digits 10 n).reverse.map digitChar

/-- `impl Display for FlushStrategy`: the interval is printed via
`interval.as_millis()`. -/
def FlushStrategy.display : FlushStrategy → List Char
  | .Default => kDefault
  | .End => kEnd
  | .EndPeriodically interval => kEndComma ++ renderNat (durAsMillis interval)
  | .Periodically interval => kPeriodicallyComma ++ renderNat (durAsMillis interval)
  | .Continuously interval => kContinuouslyComma ++ renderNat (durAsMillis interval)

/-- A strategy whose interval (when it has one) is a whole, positive number
of milliseconds expressible as a `u64` — the image of the parser. `Default`
and `End` carry no interval. -/
def FlushStrategy.msRepresentable : FlushStrategy → Prop
  | .Default => True
  | .End => True
  | .EndPeriodically interval => ∃ k, 1 ≤ k ∧ k ≤ u64Max ∧ interval = durFromMillis k
  | .Periodically interval => ∃ k, 1 ≤ k ∧ k ≤ u64Max ∧ interval = durFromMillis k
  | .Continuously interval => ∃ k, 1 ≤ k ∧ k ≤ u64Max ∧ interval = durFromMillis k

/-- `enum TimerMode { Sync, Background }`. -/
inductive TimerMode where
  | Sync
  | Background
deriving DecidableEq

/-- `enum FlushTimer`. A tokio `Interval` is reduced to its period: the
claims only consult whether the timer is active and can ever fire. -/
inductive FlushTimer where
  | Active (period : Nat)
  | Inactive
deriving DecidableEq

/-- `struct FlushCoordinator`. An `Instant` is a nanosecond timestamp on the
monotonic clock; predicates take the current instant `now` explicitly, with
`now ≥` every recorded timestamp (the clock is monotonic). -/
structure FlushCoordinator where
  strategy : FlushStrategy
  lastFlush : Option Nat
  timer : FlushTimer
deriving DecidableEq

/-- `FlushCoordinator::new`: the timer is inactive for `End` and active with
the strategy's interval (or the 60 s default threshold) otherwise. -/
def FlushCoordinator.new (strategy : FlushStrategy) : FlushCoordinator :=
  let timer := match strategy with
    | .End => FlushTimer.Inactive
    | .Default => FlushTimer.Active DEFAULT_ADAPTIVE_THRESHOLD
    | .EndPeriodically interval => FlushTimer.Active interval
    | .Periodically interval => FlushTimer.Active interval
    | .Continuously interval => FlushTimer.Active interval
  { strategy := strategy, lastFlush := none, timer := timer }

/-- `FlushCoordinator::elapsed_since_flush`: monotonic elapsed time since the
last flush, or `Duration::MAX` if none. -/
def FlushCoordinator.elapsedSinceFlush (c : FlushCoordinator) (now : Nat) : Nat :=
  match c.lastFlush with
  | some t => now - t
  | none => durMax

/-- `FlushCoordinator::within_dedup_window`. -/
def FlushCoordinator.withinDedupWindow (c : FlushCoordinator) (now : Nat) : Bool :=
  match c.lastFlush with
  | some t => now - t < DEDUP_WINDOW
  | none => false

/-- `FlushCoordinator::should_flush_at_boundary`. -/
def FlushCoordinator.shouldFlushAtBoundary (c : FlushCoordinator) (now : Nat) : Bool :=
  if c.withinDedupWindow now then false
  else
    match c.strategy with
    | .Default => c.elapsedSinceFlush now ≥ DEFAULT_ADAPTIVE_THRESHOLD
    | .End => true
    | .EndPeriodically _ => true
    | .Periodically interval => c.elapsedSinceFlush now ≥ interval
    | .Continuously _ => false

/-- `FlushCoordinator::should_flush_on_timer`. -/
def FlushCoordinator.shouldFlushOnTimer (c : FlushCoordinator) (now : Nat) : Bool :=
  if c.withinDedupWindow now then false
  else
    match c.strategy with
    | .End => false
    | _ => true

/-- `FlushCoordinator::timer_mode`. The `End` arm of the source is
`unreachable!(...)` — a panic — modelled as `none`. -/
def FlushCoordinator.timerModeOf (c : FlushCoordinator) : Option TimerMode :=
  match c.strategy with
  | .End => none
  | .EndPeriodically _ => some .Sync
  | .Periodically _ => some .Sync
  | .Default => some .Background
  | .Continuously _ => some .Background

/-- `FlushCoordinator::record_flush`: capture `now` and reset the interval
timer (the reset changes only the tokio `Interval` deadline, which the model
reduces to the unchanged period). -/
def FlushCoordinator.recordFlush (c : FlushCoordinator) (now : Nat) : FlushCoordinator :=
  { c with lastFlush := some now }

/-- Whether `FlushCoordinator::next_tick` can ever resolve: the source awaits
the interval when the timer is active and `std::future::pending()` — which
never resolves — when it is inactive. -/
def FlushCoordinator.nextTickCanFire (c : FlushCoordinator) : Bool :=
  match c.timer with
  | .Active _ => true
  | .Inactive => false

/-! ## Merger (`merge/mod.rs`)

OTLP protobuf structures are embedded at the granularity the merger
inspects: a decoded export request is a list of resource-scoped items, each
carrying an optional `Resource` (a list of key-value attributes), a list of
scope-level sub-entries (opaque to the merger beyond being appended), and a
`schema_url`. Strings and encoded bytes are byte sequences (`List Nat`);
`kv.encode_to_vec()` is the injective protobuf encoding of a key-value pair,
carried alongside the key as opaque bytes. -/

/-- `KeyValue`, as the identity computation consumes it: its key (for the
`BTreeMap` sort) and its full encoded bytes `kv.encode_to_vec()`. -/
structure KeyValue where
  key : List Nat
  enc : List Nat
deriving DecidableEq

/-- `Resource`: only `attributes` participates in identity. -/
structure Resource where
  attributes : List KeyValue
deriving DecidableEq

/-- A top-level resource-scoped entry (`ResourceSpans` / `ResourceMetrics` /
`ResourceLogs`): scope-level sub-entries are opaque values. -/
structure ResItem where
  resource : Option Resource
  scopes : List Nat
  schemaUrl : List Nat
deriving DecidableEq

/-- A decoded export request: its list of top-level items
(`into_items` / `from_items`). -/
abbrev Request := List ResItem

/-- Strict lexicographic byte order, Rust's `Ord` for `&str`/`Vec<u8>`. -/
def lexLt : List Nat → List Nat → Bool
  | [], [] => false
  | [], _ :: _ => true
  | _ :: _, [] => false
  | a :: as_, b :: bs => if a < b then true else if a = b then lexLt as_ bs else false

/-- One `BTreeMap` insertion into a key-sorted association list;
an equal key overwrites (last-write-wins). -/
def mapInsert (k v : List Nat) : List (List Nat × List Nat) → List (List Nat × List Nat)
  | [] => [(k, v)]
  | (k', v') :: rest =>
    if lexLt k k' then (k, v) :: (k', v') :: rest
    else if k = k' then (k, v) :: rest
    else (k', v') :: mapInsert k v rest

/-- `BTreeMap::from_iter` over `(kv.key, kv.encode_to_vec())` in attribute
order. -/
def buildSortedMap (attrs : List KeyValue) : List (List Nat × List Nat) :=
  attrs.foldl (fun m kv => mapInsert kv.key kv.enc m) []

/-- `ResourceIdentity`: canonical sorted attribute bytes plus the
schema URL. -/
structure ResourceIdentity where
  attributes : List Nat
  schemaUrl : List Nat
deriving DecidableEq

/-- `ResourceIdentity::new`: `None` resources give empty attribute bytes;
otherwise the encoded attribute values are concatenated in sorted key order
(`sorted.into_values().flatten().collect()`). -/
def ResourceIdentity.new (resource : Option Resource) (schemaUrl : List Nat) : ResourceIdentity :=
  let attributes := match resource with
    | none => []
    | some r => ((buildSortedMap r.attributes).map Prod.snd).foldr (· ++ ·) []
  { attributes := attributes, schemaUrl := schemaUrl }

/-- `MergeableRequest::identity` for an item. -/
def ResItem.identity (item : ResItem) : ResourceIdentity :=
  ResourceIdentity.new item.resource item.schemaUrl

/-- `MergeableRequest::extend_scopes`: append the incoming item's
scope-level sub-entries to the existing item's. -/
def extendScopes (existing incoming : ResItem) : ResItem :=
  { existing with scopes := existing.scopes ++ incoming.scopes }

/-- `HashMap::get` on the association-list model of `groups` (the hash map is
only accessed by key, so insertion order carries no meaning). -/
def findVal (id : ResourceIdentity) : List (ResourceIdentity × ResItem) → Option ResItem
  | [] => none
  | (k, v) :: rest => if k = id then some v else findVal id rest

/-- In-place update of an occupied `groups` entry. -/
def updateVal (id : ResourceIdentity) (f : ResItem → ResItem) :
    List (ResourceIdentity × ResItem) → List (ResourceIdentity × ResItem)
  | [] => []
  | (k, v) :: rest => if k = id then (k, f v) :: rest else (k, v) :: updateVal id f rest

/-- `HashMap::remove` on the association-list model. -/
def removeKey (id : ResourceIdentity) :
    List (ResourceIdentity × ResItem) → List (ResourceIdentity × ResItem)
  | [] => []
  | (k, v) :: rest => if k = id then rest else (k, v) :: removeKey id rest

/-- The merger's accumulator: `groups` and the first-seen `order` list. -/
abbrev MergeSt := List (ResourceIdentity × ResItem) × List ResourceIdentity

/-- The body of the inner `for item in req.into_items()` loop of `merge`:
an occupied identity has the incoming scopes appended; a vacant identity is
recorded in `order` and inserted. -/
def insertItem (st : MergeSt) (item : ResItem) : MergeSt :=
  let id := item.identity
  match findVal id st.1 with
  | some _ => (updateVal id (fun ex => extendScopes ex item) st.1, st.2)
  | none => (st.1 ++ [(id, item)], st.2 ++ [id])

/-- The final `order.into_iter().filter_map(|id| groups.remove(&id))`. -/
def drainOrder : List ResourceIdentity → List (ResourceIdentity × ResItem) → List ResItem
  | [], _ => []
  | id :: rest, groups =>
    match findVal id groups with
    | some item => item :: drainOrder rest (removeKey id groups)
    | none => drainOrder rest (removeKey id groups)

/-- `merge::<M>`: decode each payload (a malformed payload — `none` — is
logged and skipped), fold every item through `insertItem`, and emit the
groups in first-seen identity order. -/
def mergeModel (payloads : List (Option Request)) : Request :=
  let st : MergeSt := payloads.foldl
    (fun st p =>
      match p with
      | none => st
      | some req => req.foldl insertItem st)
    ([], [])
  drainOrder st.2 st.1

/-- The flattened list of top-level items of a sequence of decoded requests,
in arrival order. -/
def itemsOf (reqs : List Request) : List ResItem := reqs.foldr (· ++ ·) []

/-- The scope-level sub-entries of a run of items, concatenated in arrival
order. -/
def flatScopes (items : List ResItem) : List Nat :=
  (items.map ResItem.scopes).foldr (· ++ ·) []

/-- First-seen order of the resource identities in a run of items. -/
def seenOrder (items : List ResItem) : List ResourceIdentity :=
  items.foldl (fun acc it => if it.identity ∈ acc then acc else acc ++ [it.identity]) []

/-! ## Exporter (spec §4.7)

The repository generation under verification declares `trait Exporter` with
`async fn export(&self, data: &mut BufferData)` — consumed by
`buffers/mod.rs`, `event_loop/mod.rs` and implemented by the mocks in
`testing.rs` — but the HTTP implementation file of that trait is absent from
the sources (the `exporter.rs` present is an earlier generation whose
`export` takes the pre-refactor `OutboundBuffer` type and cannot implement
the trait). The definitions below are therefore modelled from the spec. -/

/-- The outcome the collector side produces for one per-signal POST. -/
inductive PostResult where
  | Status (code : Nat)
  | TransportError
  | Timeout
deriving DecidableEq

/-- `reqwest::StatusCode::is_success`: 2xx. Transport errors and timeouts
are never successes. -/
def PostResult.is2xx : PostResult → Bool
  | .Status code => 200 ≤ code && code ≤ 299
  | _ => false

/-- Modelled from the spec: gzip compression (the external `flate2` crate —
not part of this repository), which the spec constrains only by
"gzip-compress then gzip-decompress of any byte sequence yields the
original". The model prefixes the two gzip magic bytes `0x1f 0x8b`. -/
def gzipCompress (data : List Nat) : List Nat := 31 :: 139 :: data

/-- Modelled from the spec: gzip decompression, the inverse of
`gzipCompress`; input that is not a gzip stream fails. -/
def gzipDecompress (data : List Nat) : Option (List Nat) :=
  match data with
  | 31 :: 139 :: rest => some rest
  | _ => none

/-- Modelled from the spec: the body of a multi-payload POST is the merge
(§4.6) of the queued payloads, re-encoded; the byte-level protobuf encoder
is not under the sources. No claim inspects this body, so the stand-in
concatenates the payload bytes. -/
def mergedBody (payloads : List Payload) : Payload := payloads.foldr (· ++ ·) []

/-- Modelled from the spec: per-signal body selection of `export` —
"Exactly one payload → POST the bytes verbatim (no decode/re-encode).
≥ 2 payloads → merge (§4.6), encode, then POST." -/
def signalPostBody (queue : List Payload) : Payload :=
  match queue with
  | [p] => p
  | q => mergedBody q

/-- The body bytes actually put on the wire: gzip-compressed when
compression is enabled. -/
def wireBody (compressionGzip : Bool) (body : Payload) : Payload :=
  if compressionGzip then gzipCompress body else body

/-- Modelled from the spec: one signal's share of `Exporter::export` —
"Empty queue → skip"; otherwise POST once and handle the response:
"2xx → signal queue is `clear`ed in the caller's `Buffer`; any other
status, transport error, or timeout → the signal queue is left intact."
Returns the updated queue, the body POSTed (if any), and the signal's
success flag (a skipped signal counts as successful). -/
def exportSignal (resp : PostResult) (sb : SignalBuffer) : SignalBuffer × Option Payload × Bool :=
  if sb.queue = [] then (sb, none, true)
  else
    let body := signalPostBody sb.queue
    if resp.is2xx then (sb.clear, some body, true)
    else (sb, some body, false)

/-- Result of one `export` run: the mutated buffer, the per-signal POSTs
that were issued, and the aggregate result. -/
structure ExportRun where
  buffer : BufferData
  requests : List (Signal × Payload)
  ok : Bool
deriving DecidableEq

/-- The request-log entry a signal contributes: one POST when a body was
sent, nothing when the signal was skipped. -/
def optReq (sig : Signal) : Option Payload → List (Signal × Payload)
  | some body => [(sig, body)]
  | none => []

/-- Modelled from the spec: `Exporter::export(buffer)` — "runs the three
per-signal posts concurrently and returns an aggregate result"; the
`requests` list records the issued POSTs (one per non-empty signal; the
three posts are independent, so a list in signal order loses no
information), and "the aggregate result is `Ok` only if all three signals
were `Ok`". The collector's response to each signal's POST is the
environment input `resp`. -/
def exportModel (resp : Signal → PostResult) (b : BufferData) : ExportRun :=
  let t := exportSignal (resp .Traces) b.traces
  let m := exportSignal (resp .Metrics) b.metrics
  let l := exportSignal (resp .Logs) b.logs
  { buffer := { traces := t.1, metrics := m.1, logs := l.1 }
    requests := optReq .Traces t.2.1 ++ optReq .Metrics m.2.1 ++ optReq .Logs l.2.1
    ok := t.2.2 && m.2.2 && l.2.2 }

/-! ## Shared outbound buffer (`buffers/mod.rs`, `OutboundBuffer`)

The tokio `JoinHandle<()>` of the background flush task is reduced to its
observable states: still running, or finished (with or without a panic).
All operations below execute under the single mutex, so they are atomic
steps of the state machine; the background task's own effect (export then
`prepend_failed`) is the separate step `bgTaskComplete`, which an
environment schedules at an arbitrary later point. -/

/-- Observable state of the stored `JoinHandle`. -/
inductive TaskStatus where
  | Running
  | Finished (panicked : Bool)
deriving DecidableEq

/-- `struct BufferState { data, flush_task }` — the state behind the mutex.
`max_bytes` lives outside the mutex as an immutable configuration value and
is passed to the operations explicitly. -/
structure BufState where
  data : BufferData
  flushTask : Option TaskStatus
deriving DecidableEq

/-- A fresh `OutboundBuffer::new`. -/
def BufState.init : BufState := { data := .empty, flushTask := none }

/-- `OutboundBuffer::push`. -/
def BufState.pushPayload (st : BufState) (signal : Signal) (payload : Payload) : BufState :=
  { st with data := st.data.push signal payload }

/-- `OutboundBuffer::take`: swap the data with an empty buffer. -/
def BufState.takeData (st : BufState) : BufState × BufferData :=
  ({ st with data := .empty }, st.data)

/-- `OutboundBuffer::prepend_failed`: no-op on empty input, otherwise
prepend and then evict to `max_bytes` when a limit is configured. -/
def prependFailed (maxBytes : Option Nat) (st : BufState) (data : BufferData) : BufState :=
  if data.isEmptyB then st
  else
    let d := st.data.prepend data
    let d := match maxBytes with
      | some maxB => d.evictTo maxB
      | none => d
    { st with data := d }

/-- Result of a spawn attempt: the new state, whether a task was spawned,
and whether a finished task's panic was surfaced (logged). -/
structure SpawnResult where
  state : BufState
  spawned : Bool
  surfacedPanic : Bool
deriving DecidableEq

/-- `OutboundBuffer::try_spawn_flush`, under the lock:
1. a handle that exists and is not finished → return "not spawned";
2. a finished handle is taken and polled, surfacing its panic;
3. the data is taken; if empty → "not spawned";
4. otherwise a new running task takes the data and its handle is stored. -/
def trySpawnFlush (st : BufState) : SpawnResult :=
  if st.flushTask = some .Running then ⟨st, false, false⟩
  else
    let surfaced := match st.flushTask with
      | some (.Finished p) => p
      | _ => false
    let st1 : BufState := { data := .empty, flushTask := none }
    if st.data.isEmptyB then ⟨st1, false, surfaced⟩
    else ⟨{ st1 with flushTask := some .Running }, true, surfaced⟩

/-- `OutboundBuffer::push_and_maybe_flush`: push under the lock, then run
the spawn protocol if the data now exceeds the configured threshold (an
unset `max_bytes` makes the over-threshold predicate permanently false). -/
def pushAndMaybeFlush (maxBytes : Option Nat) (st : BufState) (signal : Signal)
    (payload : Payload) : SpawnResult :=
  let st := st.pushPayload signal payload
  match maxBytes with
  | some maxB =>
    if st.data.totalSizeBytes > maxB then trySpawnFlush st else ⟨st, false, false⟩
  | none => ⟨st, false, false⟩

/-- The spawned background task's own completion: export the snapshot it
took, `prepend_failed` whatever the exporter left, and resolve the handle
(panicked or not). The step applies only while the handle is running. -/
def bgTaskComplete (maxBytes : Option Nat) (st : BufState) (remainder : BufferData)
    (panicked : Bool) : BufState :=
  match st.flushTask with
  | some .Running =>
    let st' := prependFailed maxBytes st remainder
    { st' with flushTask := some (.Finished panicked) }
  | _ => st

/-- `OutboundBuffer::join_flush_task`: take the handle and await it. A still
running task first completes (its `remainder`/`panicked` outcome is the
environment's choice); a panic is surfaced (logged), returned here as the
Bool. -/
def joinFlushTask (maxBytes : Option Nat) (st : BufState) (remainder : BufferData)
    (panicked : Bool) : BufState × Bool :=
  match st.flushTask with
  | none => (st, false)
  | some .Running =>
    let st' := bgTaskComplete maxBytes st remainder panicked
    ({ st' with flushTask := none }, panicked)
  | some (.Finished p) => ({ st with flushTask := none }, p)

/-- `OutboundBuffer::flush` (synchronous): join any in-flight background
task, take the data, export it, and prepend whatever the exporter left
behind. Returns whether data was exported. -/
def syncFlush (maxBytes : Option Nat) (resp : Signal → PostResult) (st : BufState)
    (remainder : BufferData) (panicked : Bool) : BufState × Bool :=
  let st := (joinFlushTask maxBytes st remainder panicked).1
  let taken := st.takeData
  let st := taken.1
  let snapshot := taken.2
  if snapshot.isEmptyB then (st, false)
  else
    let run := exportModel resp snapshot
    (prependFailed maxBytes st run.buffer, true)

/-! ## Event loop (`event_loop/mod.rs`)

`EventLoop::tick` is a `select!` over four ready signals. The embedding
makes the scheduler an environment: each tick receives the branch that won
the race (with its message), plus the environment inputs a flush in that
tick would consume. The `ReusableBoxFuture` slot holding the in-flight
`next_event` long-poll is represented by its generation number `slotGen`:
`set` — the only operation that replaces the stored future — increments it,
so a tick that leaves `slotGen` unchanged left the in-flight future in
place (tokio's `select!` polls the slot through `&mut` and drops only its
own temporary branch futures, never the slot's contents). -/

/-- `ExtensionsApiEvent`. -/
inductive ApiEvent where
  | Invoke (requestId : Nat)
  | Shutdown (reason : Nat)
deriving DecidableEq

/-- `ControlFlow<Result<(), ExitError>>` of one tick. -/
inductive LoopOutcome where
  | Continue
  | BreakOk
  | BreakErr
deriving DecidableEq

/-- The branch of the `select!` that won this tick. `NextEvent none` is the
`Err(e)` arm of the resolved long-poll; `Otlp none` / `Telemetry none` are
closed channels (`recv` returned `None`). Parsed telemetry events are
opaque to the loop (both arms are recorded-only TODOs). -/
inductive Branch where
  | NextEvent (ev : Option ApiEvent)
  | Otlp (msg : Option (Signal × Payload))
  | Telemetry (msg : Option Nat)
  | TimerTick
deriving DecidableEq

/-- The state `EventLoop` owns that the claims observe. `slotGen` is the
generation of the future in the `next_event_fut` slot; `nextEventCalls`
counts `api.next_event()` invocations; `eventsReceived` counts resolutions
of the long-poll. `EventLoop::new` issues the first call into the slot. -/
structure LoopState where
  buffer : BufState
  coordinator : FlushCoordinator
  cancelled : Bool
  slotGen : Nat
  nextEventCalls : Nat
  eventsReceived : Nat
deriving DecidableEq

/-- `EventLoop::new`: fresh buffer, fresh coordinator, and one `next_event`
call already stored in the slot. -/
def LoopState.init (strategy : FlushStrategy) : LoopState :=
  { buffer := .init
    coordinator := .new strategy
    cancelled := false
    slotGen := 0
    nextEventCalls := 1
    eventsReceived := 0 }

/-- Environment inputs one tick may consume: the current instant, the
collector's per-signal responses for a flush performed in this tick, the
outcome of a joined background task, and the residual OTLP payloads drained
at shutdown. -/
structure TickEnv where
  now : Nat
  resp : Signal → PostResult
  bgRemainder : BufferData
  bgPanicked : Bool
  residual : List (Signal × Payload)

/-- `EventLoop::tick`. `none` models a panic (the only panicking statement
reachable from the loop body is the `unreachable!` in
`FlushCoordinator::timer_mode`). -/
def tick (maxBytes : Option Nat) (env : TickEnv) (st : LoopState) (br : Branch) :
    Option (LoopState × LoopOutcome) :=
  match br with
  | .NextEvent (some (.Invoke _)) =>
    -- boundary flush when the coordinator says so, then re-arm the slot
    let st :=
      if st.coordinator.shouldFlushAtBoundary env.now then
        { st with
          buffer := (syncFlush maxBytes env.resp st.buffer env.bgRemainder env.bgPanicked).1
          coordinator := st.coordinator.recordFlush env.now }
      else st
    some ({ st with
            slotGen := st.slotGen + 1
            nextEventCalls := st.nextEventCalls + 1
            eventsReceived := st.eventsReceived + 1 }, .Continue)
  | .NextEvent (some (.Shutdown _)) =>
    -- cancel, join the background flush, drain residual payloads, final flush,
    -- and exit before the slot is ever re-armed
    let st := { st with cancelled := true }
    let st := { st with
                buffer := (joinFlushTask maxBytes st.buffer env.bgRemainder env.bgPanicked).1 }
    let st := { st with
                buffer := env.residual.foldl
                  (fun b (sp : Signal × Payload) => b.pushPayload sp.1 sp.2) st.buffer }
    let st := { st with
                buffer := (syncFlush maxBytes env.resp st.buffer BufferData.empty false).1 }
    some ({ st with eventsReceived := st.eventsReceived + 1 }, .BreakOk)
  | .NextEvent none =>
    -- Err(e): logged, then the slot is re-armed
    some ({ st with
            slotGen := st.slotGen + 1
            nextEventCalls := st.nextEventCalls + 1
            eventsReceived := st.eventsReceived + 1 }, .Continue)
  | .Otlp (some (signal, payload)) =>
    let r := pushAndMaybeFlush maxBytes st.buffer signal payload
    let st := { st with buffer := r.state }
    let st :=
      if r.spawned then { st with coordinator := st.coordinator.recordFlush env.now } else st
    some (st, .Continue)
  | .Otlp none =>
    if st.cancelled then some (st, .Continue) else some (st, .BreakErr)
  | .Telemetry (some _) => some (st, .Continue)
  | .Telemetry none =>
    if st.cancelled then some (st, .Continue) else some (st, .BreakErr)
  | .TimerTick =>
    if st.coordinator.shouldFlushOnTimer env.now then
      match st.coordinator.timerModeOf with
      | none => none
      | some .Sync =>
        some ({ st with
                buffer := (syncFlush maxBytes env.resp st.buffer env.bgRemainder
                  env.bgPanicked).1
                coordinator := st.coordinator.recordFlush env.now }, .Continue)
      | some .Background =>
        let r := trySpawnFlush st.buffer
        let st := { st with buffer := r.state }
        let st :=
          if r.spawned then { st with coordinator := st.coordinator.recordFlush env.now }
          else st
        some (st, .Continue)
    else some (st, .Continue)

/-- Whether a branch can win the `select!` at all: the timer branch requires
`next_tick` to be able to resolve, which it never does when the strategy's
timer is inactive. -/
def branchEnabled (st : LoopState) (br : Branch) : Bool :=
  match br with
  | .TimerTick => st.coordinator.nextTickCanFire
  | _ => true

/-! ## Theorems -/

/-- Claim C4: for all buffers `a` and `b`, after `b.prepend(a)` each of the
three signal queues of `b` is exactly the queue of `a` followed by the
original queue of `b`, and `total_size_bytes` of `b` equals
`total_size_bytes` of `a` plus the original `total_size_bytes` of `b`. -/
theorem prepend_order_and_total (a b : BufferData) :
    (b.prepend a).traces.queue = a.traces.queue ++ b.traces.queue ∧
    (b.prepend a).metrics.queue = a.metrics.queue ++ b.metrics.queue ∧
    (b.prepend a).logs.queue = a.logs.queue ++ b.logs.queue ∧
    (b.prepend a).totalSizeBytes = a.totalSizeBytes + b.totalSizeBytes := by
  refine ⟨rfl, rfl, rfl, ?_⟩
  simp only [BufferData.prepend, BufferData.totalSizeBytes, SignalBuffer.prepend]
  ring

/-- Claim C5 (code bug): on the reachable buffer obtained by pushing a
zero-length traces payload and then the one-byte payload `[120]`,
`evict_to(0)` terminates with `total_size_bytes = 1 > 0` and a non-empty
traces queue: the first pass pops the zero-length payload but frees zero
bytes, so `any_evicted` stays false and the loop breaks early, contradicting
the claimed postcondition (total ≤ max or all queues empty) and the
function's own doc comment. -/
theorem evict_to_stalls_on_zero_length_payload :
    ((BufferData.empty.push .Traces []).push .Traces [120]).evictTo 0 =
      { traces := { queue := [[120]], size_bytes := 1 },
        metrics := .empty, logs := .empty } ∧
    (((BufferData.empty.push .Traces []).push .Traces [120]).evictTo 0).totalSizeBytes = 1 ∧
    (((BufferData.empty.push .Traces []).push .Traces [120]).evictTo 0).isEmptyB = false := by
  decide

/-- Claim C8: on a freshly constructed coordinator with no prior flush,
`should_flush_at_boundary` is true for `End`, `EndPeriodically(I)` (every
interval), `Periodically(I)` (every representable interval) and `Default`,
and false for `Continuously(I)`. -/
theorem fresh_boundary_predicate (now : Nat) :
    (FlushCoordinator.new .End).shouldFlushAtBoundary now = true ∧
    (∀ I, (FlushCoordinator.new (.EndPeriodically I)).shouldFlushAtBoundary now = true) ∧
    (∀ I, I ≤ durMax →
      (FlushCoordinator.new (.Periodically I)).shouldFlushAtBoundary now = true) ∧
    (FlushCoordinator.new .Default).shouldFlushAtBoundary now = true ∧
    (∀ I, (FlushCoordinator.new (.Continuously I)).shouldFlushAtBoundary now = false) := by
  refine ⟨?_, fun I => ?_, fun I hI => ?_, ?_, fun I => ?_⟩ <;>
    simp [FlushCoordinator.new, FlushCoordinator.shouldFlushAtBoundary,
      FlushCoordinator.withinDedupWindow, FlushCoordinator.elapsedSinceFlush]
  · exact hI
  · decide

/-- Witness for C8 at a concrete representable interval. -/
theorem fresh_boundary_predicate_witness :
    (FlushCoordinator.new (.Periodically 5000000000)).shouldFlushAtBoundary 0 = true :=
  (fresh_boundary_predicate 0).2.2.1 5000000000 (by decide)

/-- `timer_mode` panics exactly on the `End` strategy. -/
theorem timerModeOf_eq_none_iff (c : FlushCoordinator) :
    c.timerModeOf = none ↔ c.strategy = .End := by
  cases h : c.strategy <;> simp [FlushCoordinator.timerModeOf, h]

/-- Claim C10: `timer_mode` hits the `unreachable!` panic exactly when the
strategy is `End`; every other strategy returns without panicking — `Sync`
for `Periodically` and `EndPeriodically`, `Background` for `Default` and
`Continuously`. The panic is never reached from the event loop: for `End`
the coordinator's timer is inactive, so `next_tick` pends forever and the
timer branch can never win the `select!` — and one tick of the embedded
event loop never panics on any input. -/
theorem timer_mode_panic_only_for_end :
    (∀ c : FlushCoordinator, c.timerModeOf = none ↔ c.strategy = .End) ∧
    (∀ I, (FlushCoordinator.new (.Periodically I)).timerModeOf = some .Sync) ∧
    (∀ I, (FlushCoordinator.new (.EndPeriodically I)).timerModeOf = some .Sync) ∧
    (FlushCoordinator.new .Default).timerModeOf = some .Background ∧
    (∀ I, (FlushCoordinator.new (.Continuously I)).timerModeOf = some .Background) ∧
    (∀ s, (FlushCoordinator.new s).nextTickCanFire = false ↔ s = .End) ∧
    (∀ maxB env st br, (tick maxB env st br).isSome = true) := by
  refine ⟨?_, ?_, ?_, ?_, ?_, ?_, ?_⟩
  · exact timerModeOf_eq_none_iff
  · intro I; rfl
  · intro I; rfl
  · rfl
  · intro I; rfl
  · intro s
    cases s <;> simp [FlushCoordinator.new, FlushCoordinator.nextTickCanFire]
  · intro maxB env st br
    cases br with
    | NextEvent ev =>
      match ev with
      | some (.Invoke _) => simp [tick]
      | some (.Shutdown _) => simp [tick]
      | none => simp [tick]
    | Otlp msg =>
      match msg with
      | some _ => simp [tick]
      | none => simp [tick]; split <;> simp
    | Telemetry msg =>
      match msg with
      | some _ => simp [tick]
      | none => simp [tick]; split <;> simp
    | TimerTick =>
      by_cases hf : st.coordinator.shouldFlushOnTimer env.now
      · have hne : st.coordinator.strategy ≠ .End := by
          intro hEnd
          rw [FlushCoordinator.shouldFlushOnTimer] at hf
          rw [hEnd] at hf
          split at hf <;> simp_all
        have : st.coordinator.timerModeOf ≠ none := by
          intro hnone
          exact hne ((timerModeOf_eq_none_iff st.coordinator).mp hnone)
        simp only [tick, hf, if_true]
        match hm : st.coordinator.timerModeOf with
        | none => exact absurd hm this
        | some .Sync => simp
        | some .Background => simp
      · simp [tick, hf]

/-- Claim C6: at most one in-flight background flush handle exists at any
time (the state holds one optional handle, and a spawn never overwrites a
running one): a spawn attempt — `spawn_flush` or the over-threshold path of
`push_and_maybe_flush` — made while a previous handle is unfinished returns
"not spawned" and leaves the data and the handle exactly as they were
(beyond the push itself on the push path); a finished handle's completion
is surfaced on the next spawn attempt or join (its panic flag is logged,
and the operation returns normally rather than propagating it); no
operation other than a spawn attempt or `join_flush_task` replaces the
handle — push, take, `prepend_failed` and the task's own completion leave
it in place (completion only marks it finished); and a spawn stores a new
running handle only when no unfinished handle existed and the buffer was
non-empty. -/
theorem flush_task_lifecycle :
    (∀ st : BufState, st.flushTask = some .Running → trySpawnFlush st = ⟨st, false, false⟩) ∧
    (∀ (maxB : Option Nat) (st : BufState) sig p, st.flushTask = some .Running →
      (pushAndMaybeFlush maxB st sig p).state = st.pushPayload sig p ∧
      (pushAndMaybeFlush maxB st sig p).spawned = false) ∧
    (∀ (st : BufState) sig p, (st.pushPayload sig p).flushTask = st.flushTask) ∧
    (∀ st : BufState, st.takeData.1.flushTask = st.flushTask) ∧
    (∀ (maxB : Option Nat) (st : BufState) d, (prependFailed maxB st d).flushTask = st.flushTask) ∧
    (∀ (maxB : Option Nat) (st : BufState) rem pk, st.flushTask = some .Running →
      (bgTaskComplete maxB st rem pk).flushTask = some (.Finished pk)) ∧
    (∀ (st : BufState) pk, st.flushTask = some (.Finished pk) →
      (trySpawnFlush st).surfacedPanic = pk) ∧
    (∀ st : BufState, (trySpawnFlush st).state.flushTask = none ∨
      (trySpawnFlush st).state.flushTask = some .Running) ∧
    (∀ (maxB : Option Nat) (st : BufState) rem pk,
      (joinFlushTask maxB st rem pk).1.flushTask = none) ∧
    (∀ st : BufState, (trySpawnFlush st).spawned = true →
      st.flushTask ≠ some .Running ∧ st.data.isEmptyB = false) := by
  have hpush : ∀ (st : BufState) sig p, (st.pushPayload sig p).flushTask = st.flushTask := by
    intro st sig p; rfl
  have hrun : ∀ st : BufState, st.flushTask = some .Running →
      trySpawnFlush st = ⟨st, false, false⟩ := by
    intro st h
    simp [trySpawnFlush, h]
  refine ⟨hrun, ?_, hpush, ?_, ?_, ?_, ?_, ?_, ?_, ?_⟩
  · intro maxB st sig p h
    unfold pushAndMaybeFlush
    cases maxB with
    | none => exact ⟨rfl, rfl⟩
    | some m =>
      by_cases hgt : (st.pushPayload sig p).data.totalSizeBytes > m
      · have := hrun (st.pushPayload sig p) (by rw [hpush]; exact h)
        simp [hgt, this]
      · simp [hgt]
  · intro st; rfl
  · intro maxB st d
    unfold prependFailed
    by_cases he : d.isEmptyB <;> simp [he]
  · intro maxB st rem pk h
    simp only [bgTaskComplete, h]
  · intro st pk h
    have hnr : ¬ st.flushTask = some TaskStatus.Running := by simp [h]
    simp only [trySpawnFlush, hnr, if_false, h]
    by_cases he : st.data.isEmptyB <;> simp [he]
  · intro st
    by_cases hr : st.flushTask = some TaskStatus.Running
    · rw [hrun st hr]; right; exact hr
    · simp only [trySpawnFlush, hr, if_false]
      by_cases he : st.data.isEmptyB <;> simp [he]
  · intro maxB st rem pk
    rcases hft : st.flushTask with _ | ts
    · simp [joinFlushTask, hft]
    · cases ts <;> simp [joinFlushTask, hft, bgTaskComplete]
  · intro st h
    by_cases hr : st.flushTask = some TaskStatus.Running
    · rw [hrun st hr] at h
      exact absurd h (by simp)
    · refine ⟨hr, ?_⟩
      by_cases he : st.data.isEmptyB
      · simp only [trySpawnFlush, hr, if_false, he, if_true] at h
        exact absurd h (by simp)
      · simpa using he

/-- Witness for C6: a spawn attempt against a running handle is a no-op. -/
theorem flush_task_lifecycle_witness :
    trySpawnFlush ⟨BufferData.empty.push .Traces [1], some .Running⟩ =
      ⟨⟨BufferData.empty.push .Traces [1], some .Running⟩, false, false⟩ :=
  flush_task_lifecycle.1 _ rfl

/-- The OTLP branch of a tick leaves the slot and the poll counters alone
and never breaks with `Ok`. -/
theorem tick_otlp_counters (maxB : Option Nat) (env : TickEnv) (st : LoopState)
    (msg : Option (Signal × Payload)) (st' : LoopState) (o : LoopOutcome)
    (h : tick maxB env st (.Otlp msg) = some (st', o)) :
    st'.slotGen = st.slotGen ∧ st'.nextEventCalls = st.nextEventCalls ∧
    st'.eventsReceived = st.eventsReceived ∧ (o = .Continue ∨ o = .BreakErr) := by
  cases msg with
  | some sp =>
    simp only [tick, Option.some.injEq, Prod.mk.injEq] at h
    obtain ⟨h1, h2⟩ := h
    subst h1; subst h2
    split <;> simp
  | none =>
    simp only [tick] at h
    split at h <;>
      (simp only [Option.some.injEq, Prod.mk.injEq] at h;
       obtain ⟨h1, h2⟩ := h; subst h1; subst h2; simp)

/-- The telemetry branch of a tick leaves the slot and the poll counters
alone and never breaks with `Ok`. -/
theorem tick_telemetry_counters (maxB : Option Nat) (env : TickEnv) (st : LoopState)
    (msg : Option Nat) (st' : LoopState) (o : LoopOutcome)
    (h : tick maxB env st (.Telemetry msg) = some (st', o)) :
    st'.slotGen = st.slotGen ∧ st'.nextEventCalls = st.nextEventCalls ∧
    st'.eventsReceived = st.eventsReceived ∧ (o = .Continue ∨ o = .BreakErr) := by
  cases msg with
  | some ev =>
    simp only [tick, Option.some.injEq, Prod.mk.injEq] at h
    obtain ⟨h1, h2⟩ := h
    subst h1; subst h2; simp
  | none =>
    simp only [tick] at h
    split at h <;>
      (simp only [Option.some.injEq, Prod.mk.injEq] at h;
       obtain ⟨h1, h2⟩ := h; subst h1; subst h2; simp)

/-- The timer branch of a tick leaves the slot and the poll counters alone
and always continues. -/
theorem tick_timer_counters (maxB : Option Nat) (env : TickEnv) (st : LoopState)
    (st' : LoopState) (o : LoopOutcome)
    (h : tick maxB env st .TimerTick = some (st', o)) :
    st'.slotGen = st.slotGen ∧ st'.nextEventCalls = st.nextEventCalls ∧
    st'.eventsReceived = st.eventsReceived ∧ o = .Continue := by
  simp only [tick] at h
  split at h
  · split at h
    · exact absurd h (by simp)
    · simp only [Option.some.injEq, Prod.mk.injEq] at h
      obtain ⟨h1, h2⟩ := h
      subst h1; subst h2; simp
    · simp only [Option.some.injEq, Prod.mk.injEq] at h
      obtain ⟨h1, h2⟩ := h
      subst h1; subst h2
      split <;> simp
  · simp only [Option.some.injEq, Prod.mk.injEq] at h
    obtain ⟨h1, h2⟩ := h
    subst h1; subst h2; simp

/-- The lifecycle branch of a tick consumes exactly one received event; an
`Invoke` or API error re-arms the slot with exactly one fresh `next_event`
call and continues, while `Shutdown` breaks with `Ok` without touching the
slot or issuing a new call. -/
theorem tick_next_event_counters (maxB : Option Nat) (env : TickEnv) (st : LoopState)
    (ev : Option ApiEvent) (st' : LoopState) (o : LoopOutcome)
    (h : tick maxB env st (.NextEvent ev) = some (st', o)) :
    st'.eventsReceived = st.eventsReceived + 1 ∧
    ((o = .Continue ∧ st'.slotGen = st.slotGen + 1 ∧
        st'.nextEventCalls = st.nextEventCalls + 1) ∨
     (o = .BreakOk ∧ st'.slotGen = st.slotGen ∧
        st'.nextEventCalls = st.nextEventCalls)) := by
  match ev with
  | some (.Invoke rid) =>
    simp only [tick, Option.some.injEq, Prod.mk.injEq] at h
    obtain ⟨h1, h2⟩ := h
    subst h1; subst h2
    refine ⟨by split <;> simp, Or.inl ⟨rfl, ?_, ?_⟩⟩ <;> split <;> simp
  | some (.Shutdown r) =>
    simp only [tick, Option.some.injEq, Prod.mk.injEq] at h
    obtain ⟨h1, h2⟩ := h
    subst h1; subst h2
    exact ⟨rfl, Or.inr ⟨rfl, rfl, rfl⟩⟩
  | none =>
    simp only [tick, Option.some.injEq, Prod.mk.injEq] at h
    obtain ⟨h1, h2⟩ := h
    subst h1; subst h2
    exact ⟨rfl, Or.inl ⟨rfl, rfl, rfl⟩⟩

/-- Claim C9: the in-flight `next_event` long-poll future in the persistent
slot is never cancelled or re-created while pending — the OTLP, telemetry
and timer branches of a tick leave the slot generation untouched and invoke
no `next_event`; one `next_event` call is placed into the slot exactly once
per resolution of the in-flight future (none after `Shutdown`, which exits
the loop); and as long as the loop continues, exactly one poll is
outstanding: ticks preserve `nextEventCalls = eventsReceived + 1`, and a
clean shutdown ends with `nextEventCalls = eventsReceived` — `next_event`
was invoked exactly once per received event. -/
theorem long_poll_slot_discipline :
    (∀ (maxB : Option Nat) (env : TickEnv) (st : LoopState) msg st' o,
      tick maxB env st (.Otlp msg) = some (st', o) →
      st'.slotGen = st.slotGen ∧ st'.nextEventCalls = st.nextEventCalls ∧
      st'.eventsReceived = st.eventsReceived) ∧
    (∀ (maxB : Option Nat) (env : TickEnv) (st : LoopState) msg st' o,
      tick maxB env st (.Telemetry msg) = some (st', o) →
      st'.slotGen = st.slotGen ∧ st'.nextEventCalls = st.nextEventCalls ∧
      st'.eventsReceived = st.eventsReceived) ∧
    (∀ (maxB : Option Nat) (env : TickEnv) (st : LoopState) st' o,
      tick maxB env st .TimerTick = some (st', o) →
      st'.slotGen = st.slotGen ∧ st'.nextEventCalls = st.nextEventCalls ∧
      st'.eventsReceived = st.eventsReceived) ∧
    (∀ (maxB : Option Nat) (env : TickEnv) (st : LoopState) ev st' o,
      tick maxB env st (.NextEvent ev) = some (st', o) →
      st'.eventsReceived = st.eventsReceived + 1 ∧
      (o = .Continue → st'.slotGen = st.slotGen + 1 ∧
        st'.nextEventCalls = st.nextEventCalls + 1) ∧
      (o = .BreakOk → st'.slotGen = st.slotGen ∧
        st'.nextEventCalls = st.nextEventCalls)) ∧
    (∀ (maxB : Option Nat) (env : TickEnv) (st : LoopState) br st' o,
      tick maxB env st br = some (st', o) →
      st.nextEventCalls = st.eventsReceived + 1 →
      (o = .Continue → st'.nextEventCalls = st'.eventsReceived + 1) ∧
      (o = .BreakOk → st'.nextEventCalls = st'.eventsReceived)) := by
  refine ⟨?_, ?_, ?_, ?_, ?_⟩
  · intro maxB env st msg st' o h
    exact ⟨(tick_otlp_counters maxB env st msg st' o h).1,
           (tick_otlp_counters maxB env st msg st' o h).2.1,
           (tick_otlp_counters maxB env st msg st' o h).2.2.1⟩
  · intro maxB env st msg st' o h
    exact ⟨(tick_telemetry_counters maxB env st msg st' o h).1,
           (tick_telemetry_counters maxB env st msg st' o h).2.1,
           (tick_telemetry_counters maxB env st msg st' o h).2.2.1⟩
  · intro maxB env st st' o h
    exact ⟨(tick_timer_counters maxB env st st' o h).1,
           (tick_timer_counters maxB env st st' o h).2.1,
           (tick_timer_counters maxB env st st' o h).2.2.1⟩
  · intro maxB env st ev st' o h
    obtain ⟨h1, h2⟩ := tick_next_event_counters maxB env st ev st' o h
    refine ⟨h1, ?_, ?_⟩
    · intro hc
      rcases h2 with ⟨_, hs, hn⟩ | ⟨hb, _, _⟩
      · exact ⟨hs, hn⟩
      · rw [hc] at hb; cases hb
    · intro hb
      rcases h2 with ⟨hc, _, _⟩ | ⟨_, hs, hn⟩
      · rw [hb] at hc; cases hc
      · exact ⟨hs, hn⟩
  · intro maxB env st br st' o h hinv
    cases br with
    | Otlp msg =>
      obtain ⟨_, hn, he, ho⟩ := tick_otlp_counters maxB env st msg st' o h
      refine ⟨fun _ => by omega, fun hb => ?_⟩
      rcases ho with hc | hc <;> (rw [hb] at hc; cases hc)
    | Telemetry msg =>
      obtain ⟨_, hn, he, ho⟩ := tick_telemetry_counters maxB env st msg st' o h
      refine ⟨fun _ => by omega, fun hb => ?_⟩
      rcases ho with hc | hc <;> (rw [hb] at hc; cases hc)
    | TimerTick =>
      obtain ⟨_, hn, he, ho⟩ := tick_timer_counters maxB env st st' o h
      refine ⟨fun _ => by omega, fun hb => ?_⟩
      rw [hb] at ho; cases ho
    | NextEvent ev =>
      obtain ⟨h1, h2⟩ := tick_next_event_counters maxB env st ev st' o h
      refine ⟨fun hc => ?_, fun hb => ?_⟩
      · rcases h2 with ⟨_, _, hn⟩ | ⟨hb', _, _⟩
        · omega
        · rw [hc] at hb'; cases hb'
      · rcases h2 with ⟨hc', _, _⟩ | ⟨_, _, hn⟩
        · rw [hb] at hc'; cases hc'
        · omega

/-- Witness for C9: an OTLP payload tick on a fresh `End`-strategy loop
leaves the slot and the poll counters untouched. -/
theorem long_poll_slot_discipline_witness :
    ({ LoopState.init .End with
        buffer := (LoopState.init .End).buffer.pushPayload .Traces [7] }).slotGen =
      (LoopState.init .End).slotGen ∧
    ({ LoopState.init .End with
        buffer := (LoopState.init .End).buffer.pushPayload .Traces [7] }).nextEventCalls =
      (LoopState.init .End).nextEventCalls ∧
    ({ LoopState.init .End with
        buffer := (LoopState.init .End).buffer.pushPayload .Traces [7] }).eventsReceived =
      (LoopState.init .End).eventsReceived :=
  long_poll_slot_discipline.1 none
    ⟨0, fun _ => PostResult.Timeout, BufferData.empty, false, []⟩
    (LoopState.init .End) (some (.Traces, [7]))
    { LoopState.init .End with
        buffer := (LoopState.init .End).buffer.pushPayload .Traces [7] }
    .Continue rfl

/-- The buffer a signal's export leaves behind: untouched on skip or
failure, cleared on a 2xx response. -/
theorem exportSignal_buf (resp : PostResult) (sb : SignalBuffer) :
    (exportSignal resp sb).1 =
      if sb.queue = [] then sb else if resp.is2xx then sb.clear else sb := by
  by_cases h : sb.queue = [] <;> by_cases h2 : resp.is2xx <;> simp [exportSignal, h, h2]

/-- The body a signal's export POSTs: nothing on skip, the selected body
otherwise (the POST happens whatever the response turns out to be). -/
theorem exportSignal_body (resp : PostResult) (sb : SignalBuffer) :
    (exportSignal resp sb).2.1 =
      if sb.queue = [] then none else some (signalPostBody sb.queue) := by
  by_cases h : sb.queue = [] <;> by_cases h2 : resp.is2xx <;> simp [exportSignal, h, h2]

/-- A signal's success flag: skipped or 2xx. -/
theorem exportSignal_ok_eq (resp : PostResult) (sb : SignalBuffer) :
    (exportSignal resp sb).2.2 = (decide (sb.queue = []) || resp.is2xx) := by
  by_cases h : sb.queue = [] <;> by_cases h2 : resp.is2xx <;> simp [exportSignal, h, h2]

/-- Filtering the request log for the signal that produced an entry keeps
it. -/
theorem filter_optReq_self (sig : Signal) (o : Option Payload) :
    (optReq sig o).filter (fun r => decide (r.1 = sig)) = optReq sig o := by
  cases o <;> simp [optReq]

/-- Filtering the request log for a different signal drops an entry. -/
theorem filter_optReq_other (sig sig' : Signal) (hne : sig' ≠ sig) (o : Option Payload) :
    (optReq sig' o).filter (fun r => decide (r.1 = sig)) = [] := by
  cases o <;> simp [optReq, hne]

/-- Claim C1 (spec-modelled exporter): in every run of `export` each signal
with a non-empty queue is POSTed exactly once (an empty queue is skipped);
a 2xx response clears that signal's queue in the caller's buffer while any
other status, transport error or timeout leaves it intact; the aggregate
result is `Ok` exactly when all three signals succeeded; and when exactly
the metrics POST fails, the traces and logs queues end empty while the
metrics queue is untouched and the aggregate result is an error. -/
theorem export_response_handling (resp : Signal → PostResult) (b : BufferData) :
    (∀ sig, ((exportModel resp b).requests.filter (fun r => decide (r.1 = sig))).length =
      if (b.getSig sig).queue = [] then 0 else 1) ∧
    (∀ sig, (b.getSig sig).queue ≠ [] → (resp sig).is2xx = true →
      (exportModel resp b).buffer.getSig sig = (b.getSig sig).clear) ∧
    (∀ sig, (resp sig).is2xx = false →
      (exportModel resp b).buffer.getSig sig = b.getSig sig) ∧
    ((exportModel resp b).ok = true ↔
      ∀ sig, (b.getSig sig).queue = [] ∨ (resp sig).is2xx = true) ∧
    (b.traces.queue ≠ [] → b.metrics.queue ≠ [] → b.logs.queue ≠ [] →
      (resp .Traces).is2xx = true → (resp .Metrics).is2xx = false →
      (resp .Logs).is2xx = true →
      (exportModel resp b).buffer.traces.queue = [] ∧
      (exportModel resp b).buffer.logs.queue = [] ∧
      (exportModel resp b).buffer.metrics = b.metrics ∧
      (exportModel resp b).ok = false) := by
  refine ⟨?_, ?_, ?_, ?_, ?_⟩
  · intro sig
    cases sig with
    | Traces =>
      simp only [exportModel, BufferData.getSig, List.filter_append, filter_optReq_self,
        exportSignal_body, filter_optReq_other Signal.Traces Signal.Metrics (by decide),
        filter_optReq_other Signal.Traces Signal.Logs (by decide), List.append_nil,
        List.nil_append]
      split <;> simp [optReq]
    | Metrics =>
      simp only [exportModel, BufferData.getSig, List.filter_append, filter_optReq_self,
        exportSignal_body, filter_optReq_other Signal.Metrics Signal.Traces (by decide),
        filter_optReq_other Signal.Metrics Signal.Logs (by decide), List.append_nil,
        List.nil_append]
      split <;> simp [optReq]
    | Logs =>
      simp only [exportModel, BufferData.getSig, List.filter_append, filter_optReq_self,
        exportSignal_body, filter_optReq_other Signal.Logs Signal.Traces (by decide),
        filter_optReq_other Signal.Logs Signal.Metrics (by decide), List.append_nil,
        List.nil_append]
      split <;> simp [optReq]
  · intro sig hq h2
    cases sig with
    | Traces =>
      simp only [BufferData.getSig] at hq
      simp [exportModel, BufferData.getSig, exportSignal_buf, hq, h2]
    | Metrics =>
      simp only [BufferData.getSig] at hq
      simp [exportModel, BufferData.getSig, exportSignal_buf, hq, h2]
    | Logs =>
      simp only [BufferData.getSig] at hq
      simp [exportModel, BufferData.getSig, exportSignal_buf, hq, h2]
  · intro sig h2
    cases sig <;>
      (simp only [exportModel, BufferData.getSig, exportSignal_buf, h2]; split <;> simp)
  · simp only [exportModel, exportSignal_ok_eq, Bool.and_eq_true, Bool.or_eq_true,
      decide_eq_true_eq]
    constructor
    · rintro ⟨⟨ht, hm⟩, hl⟩ sig
      cases sig
      · exact ht
      · exact hm
      · exact hl
    · intro h
      exact ⟨⟨h .Traces, h .Metrics⟩, h .Logs⟩
  · intro ht hm hl h2t h2m h2l
    refine ⟨?_, ?_, ?_, ?_⟩
    · simp [exportModel, exportSignal_buf, ht, h2t, SignalBuffer.clear]
    · simp [exportModel, exportSignal_buf, hl, h2l, SignalBuffer.clear]
    · simp [exportModel, exportSignal_buf, hm, h2m]
    · simp [exportModel, exportSignal_ok_eq, hm, h2m]

/-- Witness for C1: one payload per signal, metrics rejected with a 500 —
traces and logs are cleared, metrics remains, and the aggregate result is
an error. -/
theorem export_response_handling_witness :
    (exportModel
      (fun sig => match sig with
        | .Traces => PostResult.Status 200
        | .Metrics => PostResult.Status 500
        | .Logs => PostResult.Status 204)
      (((BufferData.empty.push .Traces [1]).push .Metrics [2]).push .Logs [3])).buffer.traces.queue
        = [] ∧
    (exportModel
      (fun sig => match sig with
        | .Traces => PostResult.Status 200
        | .Metrics => PostResult.Status 500
        | .Logs => PostResult.Status 204)
      (((BufferData.empty.push .Traces [1]).push .Metrics [2]).push .Logs [3])).buffer.logs.queue
        = [] ∧
    (exportModel
      (fun sig => match sig with
        | .Traces => PostResult.Status 200
        | .Metrics => PostResult.Status 500
        | .Logs => PostResult.Status 204)
      (((BufferData.empty.push .Traces [1]).push .Metrics [2]).push .Logs [3])).buffer.metrics
        = (((BufferData.empty.push .Traces [1]).push .Metrics [2]).push .Logs [3]).metrics ∧
    (exportModel
      (fun sig => match sig with
        | .Traces => PostResult.Status 200
        | .Metrics => PostResult.Status 500
        | .Logs => PostResult.Status 204)
      (((BufferData.empty.push .Traces [1]).push .Metrics [2]).push .Logs [3])).ok = false :=
  (export_response_handling _ _).2.2.2.2 (by decide) (by decide) (by decide)
    (by decide) (by decide) (by decide)

/-- Claim C2 (spec-modelled exporter): a signal whose queue holds exactly
one payload at export time has that payload's bytes POSTed verbatim — the
single-payload path selects the original bytes with no decode, merge or
re-encode — so the outbound body equals the ingress bytes when compression
is off, and gzip-decompressing the compressed wire body recovers them
exactly when compression is on. -/
theorem single_payload_posted_verbatim (resp : Signal → PostResult) (b : BufferData)
    (sig : Signal) (p : Payload) (h : (b.getSig sig).queue = [p]) :
    (exportModel resp b).requests.filter (fun r => decide (r.1 = sig)) = [(sig, p)] ∧
    signalPostBody (b.getSig sig).queue = p ∧
    wireBody false (signalPostBody (b.getSig sig).queue) = p ∧
    gzipDecompress (wireBody true (signalPostBody (b.getSig sig).queue)) = some p := by
  refine ⟨?_, ?_, ?_, ?_⟩
  · cases sig with
    | Traces =>
      simp only [BufferData.getSig] at h
      simp only [exportModel, List.filter_append, filter_optReq_self, exportSignal_body,
        filter_optReq_other Signal.Traces Signal.Metrics (by decide),
        filter_optReq_other Signal.Traces Signal.Logs (by decide),
        List.append_nil, List.nil_append, h]
      simp [optReq, signalPostBody]
    | Metrics =>
      simp only [BufferData.getSig] at h
      simp only [exportModel, List.filter_append, filter_optReq_self, exportSignal_body,
        filter_optReq_other Signal.Metrics Signal.Traces (by decide),
        filter_optReq_other Signal.Metrics Signal.Logs (by decide),
        List.append_nil, List.nil_append, h]
      simp [optReq, signalPostBody]
    | Logs =>
      simp only [BufferData.getSig] at h
      simp only [exportModel, List.filter_append, filter_optReq_self, exportSignal_body,
        filter_optReq_other Signal.Logs Signal.Traces (by decide),
        filter_optReq_other Signal.Logs Signal.Metrics (by decide),
        List.append_nil, List.nil_append, h]
      simp [optReq, signalPostBody]
  · rw [h]; rfl
  · rw [h]; rfl
  · rw [h]; rfl

/-- Witness for C2 at a concrete single-payload traces queue. -/
theorem single_payload_posted_verbatim_witness :
    ((exportModel (fun _ => PostResult.Status 200)
        (BufferData.empty.push .Traces [9, 8])).requests.filter
          (fun r => decide (r.1 = Signal.Traces))) = [(Signal.Traces, [9, 8])] ∧
    signalPostBody ((BufferData.empty.push .Traces [9, 8]).getSig .Traces).queue = [9, 8] ∧
    wireBody false
      (signalPostBody ((BufferData.empty.push .Traces [9, 8]).getSig .Traces).queue) = [9, 8] ∧
    gzipDecompress (wireBody true
      (signalPostBody ((BufferData.empty.push .Traces [9, 8]).getSig .Traces).queue)) =
        some [9, 8] :=
  single_payload_posted_verbatim (fun _ => PostResult.Status 200) _ .Traces [9, 8] rfl

/-- `as_millis` inverts `from_millis` exactly. -/
theorem durAsMillis_durFromMillis (k : Nat) : durAsMillis (durFromMillis k) = k :=
  Nat.mul_div_cancel k (by norm_num)

/-- ASCII code of a decimal digit character. -/
theorem digitChar_toNat (d : Nat) (h : d < 10) : (digitChar d).toNat = 48 + d := by
  interval_cases d <;> decide

/-- A decimal digit character passes the digit test. -/
theorem isDigitCh_digitChar (d : Nat) (h : d < 10) : isDigitCh (digitChar d) = true := by
  interval_cases d <;> decide

/-- `digitVal` inverts `digitChar` on decimal digits. -/
theorem digitVal_digitChar (d : Nat) (h : d < 10) : digitVal (digitChar d) = d := by
  interval_cases d <;> decide

/-- A decimal digit character is not the sign character. -/
theorem digitChar_ne_plus (d : Nat) (h : d < 10) : digitChar d ≠ '+' := by
  interval_cases d <;> decide

/-- The accumulator fold of `parseU64` over a most-significant-first digit
rendering computes the little-endian digit value. -/
theorem foldl_digits (l : List Nat) (h : ∀ d ∈ l, d < 10) :
    (l.reverse.map digitChar).foldl (fun a c => a * 10 + digitVal c) 0 =
      Nat.ofDigits 10 l := by
  induction l with
  | nil => simp [Nat.ofDigits]
  | cons d ds ih =>
    have hd : d < 10 := h d (by simp)
    have hds : ∀ x ∈ ds, x < 10 := fun x hx => h x (by simp [hx])
    simp only [List.reverse_cons, List.map_append, List.map_cons, List.map_nil,
      List.foldl_append, List.foldl_cons, List.foldl_nil]
    rw [ih hds, digitVal_digitChar d hd, Nat.ofDigits_cons]
    ring

/-- `parseU64` accepts any non-empty all-digit string whose value fits. -/
theorem parseU64_digits (l : List Char) (hne : l ≠ [])
    (hall : ∀ c ∈ l, isDigitCh c = true) (hplus : ∀ c ∈ l, c ≠ '+')
    (hval : l.foldl (fun a c => a * 10 + digitVal c) 0 ≤ u64Max) :
    parseU64 l = some (l.foldl (fun a c => a * 10 + digitVal c) 0) := by
  obtain ⟨c, cs, rfl⟩ := List.exists_cons_of_ne_nil hne
  have hc : ¬ (c = '+') := hplus c (List.mem_cons_self c cs)
  have hA : (c :: cs).all isDigitCh = true := List.all_eq_true.mpr hall
  simp [parseU64, hc, hA, hval]
  simpa using hval

/-- Rendering then parsing a `u64`-sized number is the identity. -/
theorem parseU64_renderNat (k : Nat) (hk : k ≤ u64Max) : parseU64 (renderNat k) = some k := by
  by_cases h0 : k = 0
  · subst h0; decide
  · have hlt : ∀ d ∈ Nat.digits 10 k, d < 10 := fun d hd =>
      Nat.digits_lt_base (by norm_num) hd
    have hne : (Nat.digits 10 k).reverse.map digitChar ≠ [] := by
      simp [Nat.digits_ne_nil_iff_ne_zero.mpr h0]
    have hall : ∀ c ∈ (Nat.digits 10 k).reverse.map digitChar, isDigitCh c = true := by
      intro c hc
      obtain ⟨d, hd, rfl⟩ := List.mem_map.mp hc
      exact isDigitCh_digitChar d (hlt d (List.mem_reverse.mp hd))
    have hplus : ∀ c ∈ (Nat.digits 10 k).reverse.map digitChar, c ≠ '+' := by
      intro c hc
      obtain ⟨d, hd, rfl⟩ := List.mem_map.mp hc
      exact digitChar_ne_plus d (hlt d (List.mem_reverse.mp hd))
    have hfold := foldl_digits (Nat.digits 10 k) hlt
    rw [renderNat, if_neg h0,
      parseU64_digits _ hne hall hplus (by rw [hfold, Nat.ofDigits_digits]; exact hk),
      hfold, Nat.ofDigits_digits]

/-- `from_str` on `"end,<digits>"`. -/
theorem fromStr_endComma (r : List Char) (k : Nat) (hp : parseU64 r = some k)
    (h0 : k ≠ 0) :
    FlushStrategy.fromStr (kEndComma ++ r) = .ok (.EndPeriodically (durFromMillis k)) := by
  have h1 : ¬(kEndComma ++ r = [] ∨ kEndComma ++ r = kDefault) := by
    simp [kEndComma, kDefault]
  have h2 : ¬(kEndComma ++ r = kEnd) := by simp [kEndComma, kEnd]
  have h3 : startsWith kEndComma (kEndComma ++ r) = true := by
    simp [kEndComma, startsWith]
  have hs : stripPre kEnd (kEndComma ++ r) = some (',' :: r) := by
    simp [stripPre, kEnd, kEndComma, startsWith]
  have h4 : parseMsParam kEnd (kEndComma ++ r) = .ok k := by
    simp [parseMsParam, hs, hp, h0]
  rw [FlushStrategy.fromStr, if_neg h1, if_neg h2, if_pos h3, h4]
  rfl

/-- `from_str` on `"periodically,<digits>"`. -/
theorem fromStr_periodicallyComma (r : List Char) (k : Nat) (hp : parseU64 r = some k)
    (h0 : k ≠ 0) :
    FlushStrategy.fromStr (kPeriodicallyComma ++ r) =
      .ok (.Periodically (durFromMillis k)) := by
  have h1 : ¬(kPeriodicallyComma ++ r = [] ∨ kPeriodicallyComma ++ r = kDefault) := by
    simp [kPeriodicallyComma, kPeriodically, kDefault]
  have h2 : ¬(kPeriodicallyComma ++ r = kEnd) := by
    simp [kPeriodicallyComma, kPeriodically, kEnd]
  have h3 : ¬(startsWith kEndComma (kPeriodicallyComma ++ r) = true) := by
    simp [kEndComma, kPeriodicallyComma, kPeriodically, startsWith]
  have h4 : startsWith kPeriodicallyComma (kPeriodicallyComma ++ r) = true := by
    simp [kPeriodicallyComma, kPeriodically, startsWith]
  have hs : stripPre kPeriodically (kPeriodicallyComma ++ r) = some (',' :: r) := by
    simp [stripPre, kPeriodicallyComma, kPeriodically, startsWith]
  have h5 : parseMsParam kPeriodically (kPeriodicallyComma ++ r) = .ok k := by
    simp [parseMsParam, hs, hp, h0]
  rw [FlushStrategy.fromStr, if_neg h1, if_neg h2, if_neg h3, if_pos (Or.inl h4), h5]
  rfl

/-- `from_str` on `"continuously,<digits>"`. -/
theorem fromStr_continuouslyComma (r : List Char) (k : Nat) (hp : parseU64 r = some k)
    (h0 : k ≠ 0) :
    FlushStrategy.fromStr (kContinuouslyComma ++ r) =
      .ok (.Continuously (durFromMillis k)) := by
  have h1 : ¬(kContinuouslyComma ++ r = [] ∨ kContinuouslyComma ++ r = kDefault) := by
    simp [kContinuouslyComma, kContinuously, kDefault]
  have h2 : ¬(kContinuouslyComma ++ r = kEnd) := by
    simp [kContinuouslyComma, kContinuously, kEnd]
  have h3 : ¬(startsWith kEndComma (kContinuouslyComma ++ r) = true) := by
    simp [kEndComma, kContinuouslyComma, kContinuously, startsWith]
  have h4 : ¬(startsWith kPeriodicallyComma (kContinuouslyComma ++ r) = true ∨
      kContinuouslyComma ++ r = kPeriodically) := by
    simp [kPeriodicallyComma, kPeriodically, kContinuouslyComma, kContinuously, startsWith]
  have h5 : startsWith kContinuouslyComma (kContinuouslyComma ++ r) = true := by
    simp [kContinuouslyComma, kContinuously, startsWith]
  have hs : stripPre kContinuously (kContinuouslyComma ++ r) = some (',' :: r) := by
    simp [stripPre, kContinuouslyComma, kContinuously, startsWith]
  have h6 : parseMsParam kContinuously (kContinuouslyComma ++ r) = .ok k := by
    simp [parseMsParam, hs, hp, h0]
  rw [FlushStrategy.fromStr, if_neg h1, if_neg h2, if_neg h3, if_neg h4,
    if_pos (Or.inl h5), h6]
  rfl

/-- Counterexample to claim C7 as stated: the strategy
`Continuously(500 µs)` is representable (the interval type holds
nanoseconds), but `Display` prints its interval as `as_millis() = 0`, giving
`"continuously,0"`, which `from_str` rejects — so `parse(display(s)) ≠ s`. -/
theorem display_parse_roundtrip_fails_subms :
    FlushStrategy.fromStr (FlushStrategy.display (.Continuously 500000)) ≠
      Except.ok (.Continuously 500000) := by
  decide

/-- Claim C7 as amended: `parse(display(s)) = s` for every strategy value
whose interval — when the strategy has one — is a whole, positive number of
milliseconds no larger than `u64::MAX` (exactly the values `from_str` can
produce). For sub-millisecond remainders `as_millis` truncates, for zero
milliseconds and for values beyond `u64::MAX` the re-parse rejects, so the
round-trip fails outside this set. -/
theorem display_parse_roundtrip_msrep (s : FlushStrategy) (hs : s.msRepresentable) :
    FlushStrategy.fromStr s.display = .ok s := by
  cases s with
  | Default => decide
  | End => decide
  | EndPeriodically i =>
    obtain ⟨k, hk1, hk2, rfl⟩ := hs
    simp only [FlushStrategy.display, durAsMillis_durFromMillis]
    exact fromStr_endComma (renderNat k) k (parseU64_renderNat k hk2) (by omega)
  | Periodically i =>
    obtain ⟨k, hk1, hk2, rfl⟩ := hs
    simp only [FlushStrategy.display, durAsMillis_durFromMillis]
    exact fromStr_periodicallyComma (renderNat k) k (parseU64_renderNat k hk2) (by omega)
  | Continuously i =>
    obtain ⟨k, hk1, hk2, rfl⟩ := hs
    simp only [FlushStrategy.display, durAsMillis_durFromMillis]
    exact fromStr_continuouslyComma (renderNat k) k (parseU64_renderNat k hk2) (by omega)

/-- Witness for the amended C7 at a concrete strategy (`"end,30000"`). -/
theorem display_parse_roundtrip_msrep_witness :
    FlushStrategy.fromStr (FlushStrategy.display (.EndPeriodically (durFromMillis 30000))) =
      .ok (.EndPeriodically (durFromMillis 30000)) :=
  display_parse_roundtrip_msrep _ ⟨30000, by decide, by decide, rfl⟩

/-- `lexLt` is irreflexive. -/
theorem lexLt_irrefl (a : List Nat) : lexLt a a = false := by
  induction a with
  | nil => rfl
  | cons x xs ih => simp [lexLt, ih]

/-- `lexLt` is asymmetric. -/
theorem lexLt_asymm : ∀ a b : List Nat, lexLt a b = true → lexLt b a = false := by
  intro a
  induction a with
  | nil =>
    intro b h
    cases b with
    | nil => simp [lexLt] at h
    | cons y ys => simp [lexLt]
  | cons x xs ih =>
    intro b h
    cases b with
    | nil => simp [lexLt] at h
    | cons y ys =>
      simp only [lexLt] at h ⊢
      by_cases h1 : x < y
      · have h2 : ¬ y < x := by omega
        have h3 : ¬ y = x := by omega
        simp [h2, h3]
      · by_cases h2 : x = y
        · subst h2
          simp only [Nat.lt_irrefl, if_false, if_pos rfl] at h ⊢
          exact ih ys h
        · simp [h1, h2] at h

/-- `lexLt` is total on distinct lists. -/
theorem lexLt_total : ∀ a b : List Nat, a ≠ b → lexLt a b = true ∨ lexLt b a = true := by
  intro a
  induction a with
  | nil =>
    intro b hne
    cases b with
    | nil => exact absurd rfl hne
    | cons y ys => left; simp [lexLt]
  | cons x xs ih =>
    intro b hne
    cases b with
    | nil => right; simp [lexLt]
    | cons y ys =>
      by_cases h1 : x < y
      · left; simp [lexLt, h1]
      · by_cases h2 : x = y
        · subst h2
          have hys : xs ≠ ys := by
            intro hh; exact hne (by rw [hh])
          rcases ih ys hys with h | h
          · left; simp [lexLt, h]
          · right; simp [lexLt, h]
        · right
          have h3 : y < x := by omega
          simp [lexLt, h3]

/-- `lexLt` is transitive. -/
theorem lexLt_trans : ∀ a b c : List Nat, lexLt a b = true → lexLt b c = true →
    lexLt a c = true := by
  intro a
  induction a with
  | nil =>
    intro b c hab hbc
    cases c with
    | nil =>
      cases b with
      | nil => simp [lexLt] at hab
      | cons y ys => simp [lexLt] at hbc
    | cons z zs => simp [lexLt]
  | cons x xs ih =>
    intro b c hab hbc
    cases b with
    | nil => simp [lexLt] at hab
    | cons y ys =>
      cases c with
      | nil => simp [lexLt] at hbc
      | cons z zs =>
        simp only [lexLt] at hab hbc ⊢
        by_cases hxy : x < y
        · by_cases hyz : y < z
          · simp [show x < z by omega]
          · by_cases heyz : y = z
            · subst heyz; simp [hxy]
            · simp [hyz, heyz] at hbc
        · by_cases hexy : x = y
          · subst hexy
            by_cases hyz : x < z
            · simp [hyz]
            · by_cases heyz : x = z
              · subst heyz
                simp only [Nat.lt_irrefl, if_false, if_pos rfl] at hab hbc ⊢
                exact ih ys zs hab hbc
              · simp [hyz, heyz] at hbc
          · simp [hxy, hexy] at hab

/-- Inserting two distinct keys into the sorted map commutes. -/
theorem mapInsert_comm (k1 k2 v1 v2 : List Nat) (hne : k1 ≠ k2) :
    ∀ m, mapInsert k1 v1 (mapInsert k2 v2 m) = mapInsert k2 v2 (mapInsert k1 v1 m) := by
  have hbase : ∀ (a b : List Nat) (va vb : List Nat), lexLt a b = true →
      mapInsert a va (mapInsert b vb []) = mapInsert b vb (mapInsert a va []) := by
    intro a b va vb hab
    have hba := lexLt_asymm _ _ hab
    have hne' : ¬ (a = b) := fun h => by subst h; rw [lexLt_irrefl] at hab; cases hab
    have hne'' : ¬ (b = a) := fun h => hne' h.symm
    simp [mapInsert, hab, hba, hne', hne'']
  intro m
  induction m with
  | nil =>
    rcases lexLt_total k1 k2 hne with h | h
    · exact hbase k1 k2 v1 v2 h
    · exact (hbase k2 k1 v2 v1 h).symm
  | cons kv m ih =>
    obtain ⟨k, v⟩ := kv
    have hne21 : ¬ (k2 = k1) := fun h => hne h.symm
    by_cases e1 : k1 = k
    · subst e1
      -- k1 is the head key; k2 is a different key
      have hlt1 : lexLt k1 k1 = false := lexLt_irrefl k1
      rcases lexLt_total k2 k1 hne21 with h21 | h12
      · -- k2 < k1 = k : case (D) mirrored
        have h12' := lexLt_asymm _ _ h21
        simp [mapInsert, h21, h12', hne, hne21, hlt1]
      · -- k1 < k2 : k2 inserts into the tail
        have h21' := lexLt_asymm _ _ h12
        simp [mapInsert, h12, h21', hne, hne21, hlt1]
    · by_cases e2 : k2 = k
      · subst e2
        have hlt2 : lexLt k2 k2 = false := lexLt_irrefl k2
        rcases lexLt_total k1 k2 hne with h12 | h21
        · have h21' := lexLt_asymm _ _ h12
          simp [mapInsert, h12, h21', hne, hne21, hlt2]
        · have h12' := lexLt_asymm _ _ h21
          simp [mapInsert, h21, h12', hne, hne21, hlt2]
      · -- neither key equals the head key
        by_cases c1 : lexLt k1 k = true
        · by_cases c2 : lexLt k2 k = true
          · -- both in front of the head: order by k1 vs k2
            rcases lexLt_total k1 k2 hne with h12 | h21
            · have h21' := lexLt_asymm _ _ h12
              simp [mapInsert, c1, c2, h12, h21', hne, hne21, e1, e2]
            · have h12' := lexLt_asymm _ _ h21
              simp [mapInsert, c1, c2, h21, h12', hne, hne21, e1, e2]
          · -- k1 before the head, k2 into the tail: k1 < k < k2
            have hk2 : lexLt k k2 = true := by
              rcases lexLt_total k2 k (fun h => e2 h) with h | h
              · exact absurd h c2
              · exact h
            have h12 : lexLt k1 k2 = true := lexLt_trans _ _ _ c1 hk2
            have h21' := lexLt_asymm _ _ h12
            simp [mapInsert, c1, c2, h12, h21', hne, hne21, e1, e2]
        · by_cases c2 : lexLt k2 k = true
          · -- k2 before the head, k1 into the tail: k2 < k < k1
            have hk1 : lexLt k k1 = true := by
              rcases lexLt_total k1 k (fun h => e1 h) with h | h
              · exact absurd h c1
              · exact h
            have h21 : lexLt k2 k1 = true := lexLt_trans _ _ _ c2 hk1
            have h12' := lexLt_asymm _ _ h21
            simp [mapInsert, c1, c2, h21, h12', hne, hne21, e1, e2]
          · -- both into the tail
            simp [mapInsert, c1, c2, e1, e2, ih]

/-- Folding `mapInsert` over a permutation of a duplicate-free attribute
list produces the same sorted map. -/
theorem foldl_mapInsert_perm {l1 l2 : List KeyValue} (hperm : l1.Perm l2) :
    (l1.map KeyValue.key).Nodup → ∀ m,
    l1.foldl (fun m kv => mapInsert kv.key kv.enc m) m =
      l2.foldl (fun m kv => mapInsert kv.key kv.enc m) m := by
  induction hperm with
  | nil => intro _ m; rfl
  | cons x p ih =>
    intro hnodup m
    simp only [List.foldl_cons]
    refine ih ?_ _
    have h := hnodup
    simp only [List.map_cons, List.nodup_cons] at h
    exact h.2
  | swap x y t =>
    intro hnodup m
    have hxy : y.key ≠ x.key := by
      have h := hnodup
      simp only [List.map_cons, List.nodup_cons] at h
      intro heq
      exact h.1 (by simp [heq])
    simp only [List.foldl_cons]
    rw [mapInsert_comm x.key y.key x.enc y.enc (fun h => hxy h.symm) m]
  | trans p1 p2 ih1 ih2 =>
    intro hnodup m
    rw [ih1 hnodup m, ih2 ((p1.map KeyValue.key).nodup hnodup) m]

/-- Spec §3: resource identity ignores attribute order — for attribute
lists with unique keys (as the OTLP spec requires), any permutation gives
the same identity. -/
theorem resourceIdentity_perm (r1 r2 : List KeyValue) (su : List Nat)
    (hperm : r1.Perm r2) (hnodup : (r1.map KeyValue.key).Nodup) :
    ResourceIdentity.new (some ⟨r1⟩) su = ResourceIdentity.new (some ⟨r2⟩) su := by
  have h := foldl_mapInsert_perm hperm hnodup ([] : List (List Nat × List Nat))
  simp only [ResourceIdentity.new, buildSortedMap]
  rw [h]

/-- `extend_scopes` does not change an item's identity. -/
theorem extendScopes_identity (a b : ResItem) :
    (extendScopes a b).identity = a.identity := rfl

/-- `updateVal` preserves the key list. -/
theorem updateVal_map_fst (id : ResourceIdentity) (f : ResItem → ResItem) :
    ∀ l, (updateVal id f l).map Prod.fst = l.map Prod.fst := by
  intro l
  induction l with
  | nil => rfl
  | cons kv rest ih =>
    obtain ⟨k, v⟩ := kv
    by_cases h : k = id <;> simp [updateVal, h, ih]

/-- Every entry of `updateVal id f l` is an entry of `l` or the image under
`f` of an entry of `l` keyed `id`. -/
theorem mem_updateVal (id : ResourceIdentity) (f : ResItem → ResItem) :
    ∀ l kv, kv ∈ updateVal id f l →
      kv ∈ l ∨ ∃ v, (id, v) ∈ l ∧ kv = (id, f v) := by
  intro l
  induction l with
  | nil => intro kv h; simp [updateVal] at h
  | cons p rest ih =>
    obtain ⟨k, v⟩ := p
    intro kv h
    by_cases hk : k = id
    · subst hk
      simp only [updateVal, if_pos rfl] at h
      rcases List.mem_cons.mp h with h | h
      · right; exact ⟨v, by simp, h⟩
      · left; exact List.mem_cons_of_mem _ h
    · simp only [updateVal, if_neg hk] at h
      rcases List.mem_cons.mp h with h | h
      · left; simp [h]
      · rcases ih kv h with h' | ⟨v', hv', rfl⟩
        · left; exact List.mem_cons_of_mem _ h'
        · right; exact ⟨v', List.mem_cons_of_mem _ hv', rfl⟩

/-- A found entry is a member with its key in the key list. -/
theorem findVal_some_mem (id : ResourceIdentity) :
    ∀ (l : List (ResourceIdentity × ResItem)) v, findVal id l = some v →
      id ∈ l.map Prod.fst ∧ (id, v) ∈ l := by
  intro l
  induction l with
  | nil => intro v h; simp [findVal] at h
  | cons p rest ih =>
    obtain ⟨k, w⟩ := p
    intro v h
    by_cases hk : k = id
    · subst hk
      simp [findVal] at h
      subst h
      exact ⟨by simp, by simp⟩
    · simp only [findVal, if_neg hk] at h
      obtain ⟨h1, h2⟩ := ih v h
      exact ⟨by simp [h1], List.mem_cons_of_mem _ h2⟩

/-- A missed lookup means the key is absent. -/
theorem findVal_none_not_mem (id : ResourceIdentity) :
    ∀ l : List (ResourceIdentity × ResItem), findVal id l = none →
      id ∉ l.map Prod.fst := by
  intro l
  induction l with
  | nil => intro _ h; simp at h
  | cons p rest ih =>
    obtain ⟨k, w⟩ := p
    intro h hmem
    by_cases hk : k = id
    · simp [findVal, hk] at h
    · simp only [findVal, if_neg hk] at h
      simp only [List.map_cons, List.mem_cons] at hmem
      rcases hmem with h' | h'
      · exact hk h'.symm
      · exact ih h h'

/-- The folded merger state is governed by its invariant: the group keys are
exactly the recorded order, each group's item keeps the identity it is keyed
under, the order list has no duplicates, and the order list is the
first-seen fold of the processed items. -/
theorem insertFold_invariant (items : List ResItem) :
    ∀ (groups : List (ResourceIdentity × ResItem)) (order : List ResourceIdentity),
    groups.map Prod.fst = order →
    (∀ kv ∈ groups, (Prod.snd kv).identity = Prod.fst kv) →
    order.Nodup →
    ((items.foldl insertItem (groups, order)).1.map Prod.fst =
      (items.foldl insertItem (groups, order)).2) ∧
    (∀ kv ∈ (items.foldl insertItem (groups, order)).1,
      (Prod.snd kv).identity = Prod.fst kv) ∧
    (items.foldl insertItem (groups, order)).2.Nodup ∧
    (items.foldl insertItem (groups, order)).2 =
      items.foldl (fun acc it => if it.identity ∈ acc then acc else acc ++ [it.identity])
        order := by
  induction items with
  | nil => intro groups order h1 h2 h3; exact ⟨h1, h2, h3, rfl⟩
  | cons it rest ih =>
    intro groups order h1 h2 h3
    simp only [List.foldl_cons]
    rcases hf : findVal it.identity groups with _ | ex
    · have hmem : it.identity ∉ order := h1 ▸ findVal_none_not_mem _ groups hf
      have step : insertItem (groups, order) it =
          (groups ++ [(it.identity, it)], order ++ [it.identity]) := by
        simp [insertItem, hf]
      rw [step]
      have h1' : (groups ++ [(it.identity, it)]).map Prod.fst = order ++ [it.identity] := by
        simp [h1]
      have h2' : ∀ kv ∈ groups ++ [(it.identity, it)],
          (Prod.snd kv).identity = Prod.fst kv := by
        intro kv hkv
        rcases List.mem_append.mp hkv with h | h
        · exact h2 kv h
        · simp only [List.mem_singleton] at h
          subst h; rfl
      have h3' : (order ++ [it.identity]).Nodup := by
        simp [List.nodup_append, h3, hmem]
      obtain ⟨a, b, c, d⟩ := ih _ _ h1' h2' h3'
      refine ⟨a, b, c, ?_⟩
      rw [d]
      congr 1
      simp [hmem]
    · have hmem : it.identity ∈ order := h1 ▸ (findVal_some_mem _ groups ex hf).1
      have step : insertItem (groups, order) it =
          (updateVal it.identity (fun e => extendScopes e it) groups, order) := by
        simp [insertItem, hf]
      rw [step]
      have h1' : (updateVal it.identity (fun e => extendScopes e it) groups).map Prod.fst =
          order := by
        rw [updateVal_map_fst]; exact h1
      have h2' : ∀ kv ∈ updateVal it.identity (fun e => extendScopes e it) groups,
          (Prod.snd kv).identity = Prod.fst kv := by
        intro kv hkv
        rcases mem_updateVal _ _ groups kv hkv with h | ⟨v', hv', rfl⟩
        · exact h2 kv h
        · simpa [extendScopes_identity] using h2 (it.identity, v') hv'
      obtain ⟨a, b, c, d⟩ := ih _ _ h1' h2' h3
      refine ⟨a, b, c, ?_⟩
      rw [d]
      congr 1
      simp [hmem]

/-- Draining duplicate-free keys in group order returns the group values. -/
theorem drainOrder_map :
    ∀ groups : List (ResourceIdentity × ResItem), (groups.map Prod.fst).Nodup →
    drainOrder (groups.map Prod.fst) groups = groups.map Prod.snd := by
  intro groups
  induction groups with
  | nil => intro _; rfl
  | cons kv rest ih =>
    obtain ⟨k, v⟩ := kv
    intro hnodup
    simp only [List.map_cons, List.nodup_cons] at hnodup
    have hk : k ∉ rest.map Prod.fst := hnodup.1
    show drainOrder (k :: rest.map Prod.fst) ((k, v) :: rest) = v :: rest.map Prod.snd
    have hfind : findVal k ((k, v) :: rest) = some v := by simp [findVal]
    have hrem : removeKey k ((k, v) :: rest) = rest := by simp [removeKey]
    simp only [drainOrder, hfind, hrem]
    rw [ih hnodup.2]

/-- Folding payload-by-payload over all-decodable payloads equals folding
over the flattened item list. -/
theorem mergeFold_eq (payloads : List Request) :
    ∀ st : MergeSt,
    (payloads.map some).foldl
      (fun st p => match p with | none => st | some req => req.foldl insertItem st) st =
    (itemsOf payloads).foldl insertItem st := by
  induction payloads with
  | nil => intro st; rfl
  | cons req rest ih =>
    intro st
    show (rest.map some).foldl _ (req.foldl insertItem st) =
      (req ++ itemsOf rest).foldl insertItem st
    rw [List.foldl_append]
    exact ih _

/-- Items that all carry the accumulator's identity only ever extend the
single group's scope list. -/
theorem procItems_single (ident : ResourceIdentity) :
    ∀ (items : List ResItem) (acc : ResItem), acc.identity = ident →
    (∀ it ∈ items, it.identity = ident) →
    items.foldl insertItem ([(ident, acc)], [ident]) =
      ([(ident, { acc with scopes := acc.scopes ++ flatScopes items })], [ident]) := by
  intro items
  induction items with
  | nil =>
    intro acc hacc h
    simp [flatScopes]
  | cons it rest ih =>
    intro acc hacc h
    have hit : it.identity = ident := h it (by simp)
    have hrest : ∀ x ∈ rest, x.identity = ident := fun x hx => h x (by simp [hx])
    have hstep : insertItem ([(ident, acc)], [ident]) it =
        ([(ident, extendScopes acc it)], [ident]) := by
      simp [insertItem, hit, findVal, updateVal]
    simp only [List.foldl_cons, hstep]
    rw [ih (extendScopes acc it) (by rw [extendScopes_identity]; exact hacc) hrest]
    simp [extendScopes, flatScopes, List.append_assoc]

/-- Claim C3: merging decodable payloads groups top-level entries by
resource identity — (i) stability: the output's identities are exactly the
first-seen identities in arrival order (one output entry per distinct
identity); (ii) when every entry shares one identity, the output is a
single resource entry whose scope-level sub-entries are all the input
entries' sub-entries concatenated in arrival order; and (iii) identity is
insensitive to attribute order: permuting a duplicate-free attribute list
leaves the resource identity unchanged (byte-equal schema URLs being part
of the identity by construction). -/
theorem merge_by_identity (payloads : List Request) :
    ((mergeModel (payloads.map some)).map ResItem.identity = seenOrder (itemsOf payloads)) ∧
    (∀ ident : ResourceIdentity, itemsOf payloads ≠ [] →
      (∀ it ∈ itemsOf payloads, it.identity = ident) →
      ∃ single : ResItem, mergeModel (payloads.map some) = [single] ∧
        single.identity = ident ∧ single.scopes = flatScopes (itemsOf payloads)) ∧
    (∀ (r1 r2 : List KeyValue) (su : List Nat), r1.Perm r2 →
      (r1.map KeyValue.key).Nodup →
      ResourceIdentity.new (some ⟨r1⟩) su = ResourceIdentity.new (some ⟨r2⟩) su) := by
  have hM : mergeModel (payloads.map some) =
      drainOrder ((itemsOf payloads).foldl insertItem (([], []) : MergeSt)).2
        ((itemsOf payloads).foldl insertItem (([], []) : MergeSt)).1 := by
    simp only [mergeModel]
    rw [mergeFold_eq payloads (([], []) : MergeSt)]
  refine ⟨?_, ?_, ?_⟩
  · obtain ⟨hk, hv, hnd, hseen⟩ :=
      insertFold_invariant (itemsOf payloads) [] [] rfl (by simp) List.nodup_nil
    rw [hM, ← hk, drainOrder_map _ (by rw [hk]; exact hnd), List.map_map]
    have hcongr :
        ((itemsOf payloads).foldl insertItem (([], []) : MergeSt)).1.map
            (ResItem.identity ∘ Prod.snd) =
          ((itemsOf payloads).foldl insertItem (([], []) : MergeSt)).1.map Prod.fst := by
      apply List.map_congr_left
      intro kv hkv
      exact hv kv hkv
    rw [hcongr, hk, hseen]
    rfl
  · intro ident hne hid
    obtain ⟨it0, rest, hitems⟩ := List.exists_cons_of_ne_nil hne
    have hid0 : it0.identity = ident := hid it0 (by rw [hitems]; simp)
    have hidr : ∀ x ∈ rest, x.identity = ident := fun x hx =>
      hid x (by rw [hitems]; simp [hx])
    refine ⟨{ it0 with scopes := it0.scopes ++ flatScopes rest }, ?_, ?_, ?_⟩
    · rw [hM, hitems]
      simp only [List.foldl_cons]
      have h0 : insertItem (([], []) : MergeSt) it0 = ([(ident, it0)], [ident]) := by
        simp [insertItem, findVal, hid0]
      rw [h0, procItems_single ident rest it0 hid0 hidr]
      simp [drainOrder, findVal, removeKey]
    · exact hid0
    · rw [hitems]
      simp [flatScopes]
  · intro r1 r2 su hperm hnodup
    exact resourceIdentity_perm r1 r2 su hperm hnodup

/-- Witness for C3: two single-entry payloads with the same (empty)
resource and schema URL merge into one entry carrying both scope lists in
arrival order. -/
theorem merge_by_identity_witness :
    ∃ single : ResItem,
      mergeModel (([[⟨some ⟨[]⟩, [1], []⟩], [⟨some ⟨[]⟩, [2, 3], []⟩]] :
          List Request).map some) = [single] ∧
      single.identity = ResourceIdentity.new (some ⟨[]⟩) [] ∧
      single.scopes =
        flatScopes (itemsOf [[⟨some ⟨[]⟩, [1], []⟩], [⟨some ⟨[]⟩, [2, 3], []⟩]]) :=
  (merge_by_identity [[⟨some ⟨[]⟩, [1], []⟩], [⟨some ⟨[]⟩, [2, 3], []⟩]]).2.1
    (ResourceIdentity.new (some ⟨[]⟩) []) (by decide) (by decide)

end OtelRelay
